import Mathlib

/-!
# Verification of `comm::Manager` (Manager.h) and `threading::formatter::JSON` (JSON.cc)

The first part embeds the state of `comm::Manager` (the private members declared in
`src/comm/Manager.h`) together with its bookkeeping operations.  `Enabled` is defined inline
in the header and is translated from there; the bodies of the other member functions live in
`Manager.cc`, which is not among the sources, so those operations follow the written
specification and are marked as such.

The second part embeds `JSON::Describe` and `JSON::DescribeInternal` from
`src/threading/formatters/JSON.cc` statement by statement.
-/

namespace comm

/-! ## Associative containers

`std::map` with unique keys is represented by an association list.  Entries are kept in
insertion order; none of the operations below depends on the iteration order. -/

/-- Lookup of a key, as `std::map::find`. -/
def mapFind {κ ν : Type} [DecidableEq κ] (k : κ) : List (κ × ν) → Option ν
  | [] => none
  | (k', v) :: rest => if k' = k then some v else mapFind k rest

/-- Removal of a key, as `std::map::erase`. -/
def mapErase {κ ν : Type} [DecidableEq κ] (k : κ) : List (κ × ν) → List (κ × ν)
  | [] => []
  | (k', v) :: rest => if k' = k then mapErase k rest else (k', v) :: mapErase k rest

/-- Insertion of a key that is not yet present. -/
def mapInsert {κ ν : Type} (k : κ) (v : ν) (m : List (κ × ν)) : List (κ × ν) :=
  m ++ [(k, v)]

/-! ## Data model (Manager.h, private members) -/

/-- The local Broker endpoint (`broker::endpoint`) with its behaviour flags. -/
structure Endpoint where
  flags : Nat
deriving DecidableEq, Repr

/-- A `broker::peering`: the connection handle handed out by the transport together with the
retry interval the connection was requested with.  The interval is a
`std::chrono::duration<double>`; it is only stored and compared, so it is carried as the
64-bit pattern of its count. -/
structure Peering where
  retry_interval : Nat
  conn : Nat
deriving DecidableEq, Repr

/-- A `broker::message_queue` bound to a topic prefix: the queue handle of the transport. -/
structure MessageQueue where
  queue : Nat
deriving DecidableEq, Repr

/-- Modelled from the spec: `StoreType` is declared in `comm/Store.h`, which is not among the
sources.  The specification gives the store kind as an enum tag ranging over
master, clone and further kinds. -/
inductive StoreType where
  | MASTER
  | CLONE
  | OTHER (tag : Nat)
deriving DecidableEq, Repr

/-- Modelled from the spec: `StoreHandleVal` is declared in `comm/Store.h`, which is not among
the sources.  A handle is either valid or not, and carries the identifier and the kind of the
store it refers to; `ref` distinguishes handle objects. -/
structure StoreHandleVal where
  valid : Bool
  id : String
  store_type : StoreType
  ref : Nat
deriving DecidableEq, Repr

/-- Modelled from the spec: `StoreQueryCallback` is declared in `comm/Store.h`, which is not
among the sources.  A pending query is identified by a process-unique token (the address of
the callback object) and records its originating store, the time it was issued at and an
optional deadline. -/
structure StoreQueryCallback where
  token : Nat
  store : String × StoreType
  issued_at : Nat
  deadline : Option Nat
deriving DecidableEq, Repr

/-- The private data members of `comm::Manager` (Manager.h, lines 303 to 311). -/
structure Manager where
  endpoint : Option Endpoint
  peers : List ((String × Nat) × Peering)
  print_subscriptions : List (String × MessageQueue)
  event_subscriptions : List (String × MessageQueue)
  log_subscriptions : List (String × MessageQueue)
  data_stores : List ((String × StoreType) × StoreHandleVal)
  pending_queries : List StoreQueryCallback
deriving DecidableEq, Repr

/-- A freshly constructed manager: no endpoint and empty registries. -/
def Manager.fresh : Manager :=
  { endpoint := none, peers := [], print_subscriptions := [], event_subscriptions := [],
    log_subscriptions := [], data_stores := [], pending_queries := [] }

/-! ## Operations -/

/-- `Manager::Enabled` (Manager.h, lines 49 and 50): `return endpoint != nullptr;`.
The member function is not `const`, so the manager is threaded through. -/
def Enabled (m : Manager) : Bool × Manager :=
  (m.endpoint.isSome, m)

/-- Modelled from the spec: the body of `Manager::Connect` is in `Manager.cc`, which is not
among the sources.  Without an endpoint the call is a precondition failure.  If
`(addr, port)` is already present the call returns false without altering the entry;
otherwise the entry is recorded with the peering `conn` that the transport hands out for
the connection attempt, and the call returns true. -/
def Connect (m : Manager) (addr : String) (port : Nat) (retry_interval : Nat) (conn : Nat) :
    Bool × Manager :=
  if !(Enabled m).1 then (false, m)
  else
    match mapFind (addr, port) m.peers with
    | some _ => (false, m)
    | none =>
      (true, { m with peers := mapInsert (addr, port)
                                 { retry_interval := retry_interval, conn := conn } m.peers })

/-- Modelled from the spec: the body of `Manager::Disconnect` is in `Manager.cc`, which is
not among the sources.  The call returns false if no matching entry exists; otherwise it
removes the entry and returns true. -/
def Disconnect (m : Manager) (addr : String) (port : Nat) : Bool × Manager :=
  match mapFind (addr, port) m.peers with
  | none => (false, m)
  | some _ => (true, { m with peers := mapErase (addr, port) m.peers })

/-- Modelled from the spec: the common shape of the three `SubscribeTo...` member functions
(bodies in `Manager.cc`, not among the sources) on one subscription table.  The call fails
if the identical prefix is already present; on success the queue handle obtained from the
transport is stored under the prefix. -/
def subscribeIn (table : List (String × MessageQueue)) (pfx : String) (queue : Nat) :
    Bool × List (String × MessageQueue) :=
  match mapFind pfx table with
  | some _ => (false, table)
  | none => (true, mapInsert pfx { queue := queue } table)

/-- Modelled from the spec: `Manager::SubscribeToPrints` (body in `Manager.cc`, not among the
sources).  Without an endpoint the call is a precondition failure; otherwise it acts on the
print table. -/
def SubscribeToPrints (m : Manager) (pfx : String) (queue : Nat) : Bool × Manager :=
  if !(Enabled m).1 then (false, m)
  else
    ((subscribeIn m.print_subscriptions pfx queue).1,
     { m with print_subscriptions := (subscribeIn m.print_subscriptions pfx queue).2 })

/-- Modelled from the spec: `Manager::SubscribeToEvents` (body in `Manager.cc`, not among the
sources).  Without an endpoint the call is a precondition failure; otherwise it acts on the
event table. -/
def SubscribeToEvents (m : Manager) (pfx : String) (queue : Nat) : Bool × Manager :=
  if !(Enabled m).1 then (false, m)
  else
    ((subscribeIn m.event_subscriptions pfx queue).1,
     { m with event_subscriptions := (subscribeIn m.event_subscriptions pfx queue).2 })

/-- Modelled from the spec: `Manager::SubscribeToLogs` (body in `Manager.cc`, not among the
sources).  Without an endpoint the call is a precondition failure; otherwise it acts on the
log table. -/
def SubscribeToLogs (m : Manager) (pfx : String) (queue : Nat) : Bool × Manager :=
  if !(Enabled m).1 then (false, m)
  else
    ((subscribeIn m.log_subscriptions pfx queue).1,
     { m with log_subscriptions := (subscribeIn m.log_subscriptions pfx queue).2 })

/-- The three categories of subscriptions. -/
inductive Category where
  | print
  | event
  | log
deriving DecidableEq, Repr

/-- The member function `SubscribeToPrints`, `SubscribeToEvents` or `SubscribeToLogs` that
belongs to the category. -/
def SubscribeTo : Category → Manager → String → Nat → Bool × Manager
  | .print => SubscribeToPrints
  | .event => SubscribeToEvents
  | .log => SubscribeToLogs

/-! ## Data store registry and pending queries -/

/-- The terminal states of a pending query. -/
inductive Resolution where
  | completed
  | timed_out
  | cancelled
deriving DecidableEq, Repr

/-- Modelled from the spec: `Manager::AddStore` (body in `Manager.cc`, not among the
sources).  The call fails if the handle is invalid or an entry with the same
(identifier, kind) already exists; otherwise it registers the handle. -/
def AddStore (m : Manager) (handle : StoreHandleVal) : Bool × Manager :=
  if !handle.valid then (false, m)
  else
    match mapFind (handle.id, handle.store_type) m.data_stores with
    | some _ => (false, m)
    | none =>
      (true, { m with data_stores :=
                        mapInsert (handle.id, handle.store_type) handle m.data_stores })

/-- Modelled from the spec: `Manager::LookupStore` (body in `Manager.cc`, not among the
sources).  A pure lookup that returns the handle or an absent result. -/
def LookupStore (m : Manager) (id : String) (type : StoreType) :
    Option StoreHandleVal × Manager :=
  (mapFind (id, type) m.data_stores, m)

/-- Modelled from the spec: `Manager::CloseStore` (body in `Manager.cc`, not among the
sources).  The call fails if the store is absent; otherwise it removes the entry and
resolves, with a cancellation result, every pending query that still references the store.
The third component lists the callbacks invoked, in order. -/
def CloseStore (m : Manager) (id : String) (type : StoreType) :
    Bool × Manager × List (Nat × Resolution) :=
  match mapFind (id, type) m.data_stores with
  | none => (false, m, [])
  | some _ =>
    (true,
     { m with data_stores := mapErase (id, type) m.data_stores,
              pending_queries := m.pending_queries.filter (fun q => q.store ≠ (id, type)) },
     (m.pending_queries.filter (fun q => q.store = (id, type))).map
        (fun q => (q.token, Resolution.cancelled)))

/-- An enabled manager without registrations, used to exercise the operations. -/
def Manager.enabled0 : Manager :=
  { Manager.fresh with endpoint := some { flags := 0 } }

/-- The valid handle of the master store "cache". -/
def cacheHandle : StoreHandleVal :=
  { valid := true, id := "cache", store_type := StoreType.MASTER, ref := 1 }

end comm

namespace threading.formatter

/-! ## Output buffer and external helpers -/

/-- The bytes of an ASCII string literal of the source. -/
def ascii (s : String) : List Nat :=
  s.data.map (fun c => c.toNat)

/-- Decimal digits of a natural number, least significant digit produced first and pushed
in front of the digits already produced; `fuel` bounds the number of digits. -/
def decimalAux : Nat → Nat → List Nat → List Nat
  | 0, _, acc => acc
  | fuel + 1, n, acc =>
    if n < 10 then (48 + n) :: acc
    else decimalAux fuel (n / 10) ((48 + n % 10) :: acc)

/-- Modelled from the spec: `ODesc::Add` for unsigned integers is defined in `Desc.cc`, which
is not among the sources; it writes the decimal digits of the number. -/
def decimal (n : Nat) : List Nat :=
  decimalAux (n + 1) n []

/-- Modelled from the spec: `ODesc::Add` for signed integers is defined in `Desc.cc`, which
is not among the sources; it writes a minus sign for a negative number, followed by the
decimal digits of the magnitude. -/
def decimalInt (i : Int) : List Nat :=
  if i < 0 then 45 :: decimal i.natAbs else decimal i.natAbs

/-- The constant `INT64_MAX` of `stdint.h`. -/
def INT64_MAX : Nat := 9223372036854775807

/-- The outcomes of JSON.cc, lines 149 to 155, for a time stamp: `gmtime` returns a null
pointer, which `strftime` is handed unchecked and dereferences (`fault`); `strftime` returns 0
(`failed`); or `strftime` succeeds and `snprintf` fills `buffer2` with the text (`text`). -/
inductive IsoResult where
  | fault
  | failed
  | text (buffer2 : List Nat)
deriving DecidableEq, Repr

/-- What the formatter obtains from code outside `JSON.cc`: the signedness of `char` on the
target, `bytetohex` of `util.cc` (the two characters it stores for a byte), the text
`ODesc::Add` writes for a `double` (given by its 64-bit pattern), `Formatter::Render` for
addresses and subnets, the outcome of `gmtime`, `strftime` and `snprintf` for an ISO 8601
time stamp, and the conversion of a time stamp to milliseconds
`(uint64_t) (double_val * 1000)`. -/
structure Platform where
  char_signed : Bool
  bytetohex : Nat → Nat × Nat
  add_double : Nat → List Nat
  render_addr : Nat → List Nat
  render_subnet : Nat → List Nat
  iso8601 : Nat → IsoResult
  to_millis : Nat → Nat

/-- Modelled from the spec: the enum `TypeTag` is declared in `Type.h`, which is not among the
sources.  The tags named by the cases of `JSON::DescribeInternal` are listed; `TYPE_OTHER`
stands for every tag without a case (record, pattern, any, ...). -/
inductive TypeTag where
  | TYPE_BOOL
  | TYPE_INT
  | TYPE_COUNT
  | TYPE_COUNTER
  | TYPE_PORT
  | TYPE_SUBNET
  | TYPE_ADDR
  | TYPE_DOUBLE
  | TYPE_INTERVAL
  | TYPE_TIME
  | TYPE_ENUM
  | TYPE_STRING
  | TYPE_FILE
  | TYPE_FUNC
  | TYPE_TABLE
  | TYPE_VECTOR
  | TYPE_OTHER
deriving DecidableEq, Repr

/-- Modelled from the spec: `threading::Value` is declared in `SerialTypes.h`, which is not
among the sources.  A value has a type tag, the flag `present` and the union `val`; every
member of the union that `JSON::DescribeInternal` reads is a field here, so that each case
of the switch reads the member it names: `int_val`, `uint_val`, `port_val.port`,
`subnet_val`, `addr_val`, `double_val` (64-bit pattern), `string_val` (the `length` bytes at
`data`), `set_val` and `vector_val` (the `size` values at `vals`). -/
inductive Value where
  | mk (type : TypeTag) (present : Bool) (int_val : Int) (uint_val : Nat) (port : Nat)
      (subnet_val : Nat) (addr_val : Nat) (double_val : Nat) (string_val : List (Fin 256))
      (set_val : List Value) (vector_val : List Value)

/-- The type tag of a value. -/
def Value.type : Value → TypeTag
  | .mk t _ _ _ _ _ _ _ _ _ _ => t

/-- The flag `present` of a value. -/
def Value.present : Value → Bool
  | .mk _ p _ _ _ _ _ _ _ _ _ => p

/-- The member `val.uint_val` of a value. -/
def Value.uint_val : Value → Nat
  | .mk _ _ _ u _ _ _ _ _ _ _ => u

/-- The bytes of the member `val.string_val` of a value. -/
def Value.string_val : Value → List (Fin 256)
  | .mk _ _ _ _ _ _ _ _ s _ _ => s

/-- Modelled from the spec: `threading::Field` is declared in `SerialTypes.h`, which is not
among the sources; the formatter reads its `name` only. -/
structure Field where
  name : List Nat

/-- The time stamp formats of the formatter (`JSON::TimeFormat`). -/
inductive TimeFormat where
  | TS_EPOCH
  | TS_ISO8601
  | TS_MILLIS
deriving DecidableEq, Repr

/-- The members of a `JSON` formatter object. -/
structure JSON where
  surrounding_braces : Bool
  timestamps : TimeFormat
  size_limit_hint : Nat

/-- The constructor `JSON::JSON` (JSON.cc, lines 18 to 22). -/
def JSON.new (tf : TimeFormat) (arg_size_limit_hint : Nat) : JSON :=
  { surrounding_braces := true, timestamps := tf, size_limit_hint := arg_size_limit_hint }

/-- The member function `JSON::SurroundingBraces` (JSON.cc, lines 290 to 293). -/
def JSON.SurroundingBraces (j : JSON) (use_braces : Bool) : JSON :=
  { j with surrounding_braces := use_braces }

/-- The errors reported through `GetThread()->Error`. -/
inductive ErrorReport where
  | count_too_large (uint_val : Nat)
  | strftime_error
  | time_too_large (ts : Nat)
deriving DecidableEq, Repr

/-- What a call of the formatter acts on: the bytes of the output buffer `desc` (an `ODesc`,
whose length is an `int`, so lengths stay below 2^31), the vector that `ptruncated` points
to (`none` for a null pointer), and the errors reported so far. -/
structure Out where
  desc : List Nat
  truncated : Option (List (List Nat))
  errors : List ErrorReport
deriving DecidableEq, Repr

/-- Modelled from the spec: `ODesc::AddRaw` and `ODesc::Add` for strings are defined in
`Desc.cc`, which is not among the sources; they append the given bytes to the buffer. -/
def Out.AddRaw (o : Out) (bytes : List Nat) : Out :=
  { o with desc := o.desc ++ bytes }

/-- Modelled from the spec: `ODesc::Truncate` is defined in `Desc.cc`, which is not among the
sources; it cuts the buffer to its first `n` bytes. -/
def Out.Truncate (o : Out) (n : Nat) : Out :=
  { o with desc := o.desc.take n }

/-- Report of an error through `GetThread()->Error`. -/
def Out.Error (o : Out) (e : ErrorReport) : Out :=
  { o with errors := o.errors ++ [e] }

/-- The statement `ptruncated->push_back(last_name.size() ? last_name : "???")`; the result
is `none` when `ptruncated` is a null pointer. -/
def Out.push_back (o : Out) (last_name : List Nat) : Option Out :=
  match o.truncated with
  | none => none
  | some t =>
    some { o with truncated := some (t ++ [if last_name.length ≠ 0 then last_name
                                           else ascii "???"]) }

/-- The value of `char c = data[i]` as an integer: on a target with signed `char` the bytes
from 128 on are negative. -/
def charValue (P : Platform) (b : Fin 256) : Int :=
  if P.char_signed ∧ 128 ≤ b.val then (b.val : Int) - 256 else (b.val : Int)

/-- The condition of JSON.cc, line 200, under which a character is written as an escape:
`c < 32 || c > 126 || c == '\n' || c == '"' || c == '\'' || c == '\\' || c == '&'`. -/
def needsEscape (P : Platform) (b : Fin 256) : Bool :=
  decide (charValue P b < 32) || decide (charValue P b > 126) || decide (charValue P b = 10)
    || decide (charValue P b = 34) || decide (charValue P b = 39)
    || decide (charValue P b = 92) || decide (charValue P b = 38)

/-- The body of the loop over the bytes of a string (JSON.cc, lines 195 to 210). -/
def escapeLoop (P : Platform) (o : Out) : List (Fin 256) → Out
  | [] => o
  | b :: rest =>
    if needsEscape P b then
      escapeLoop P
        (((o.AddRaw (ascii "\\u00")).AddRaw [(P.bytetohex b.val).1]).AddRaw
          [(P.bytetohex b.val).2]) rest
    else
      escapeLoop P (o.AddRaw [b.val]) rest

/-- The statements after the loop of the string case (JSON.cc, lines 212 to 229): the
truncation to `size_limit_hint / 100` bytes with its note, and the closing quote.  The
result is `none` when the null pointer `ptruncated` is dereferenced. -/
def finishString (J : JSON) (orig_len : Nat) (o : Out) (last_name : List Nat) : Option Out :=
  if J.size_limit_hint ≠ 0 ∧ o.desc.length > J.size_limit_hint then
    let delta : Int := (o.desc.length : Int) - (orig_len : Int)
    let keep : Int := ((J.size_limit_hint / 100 : Nat) : Int)
    if delta > keep then
      match ((((o.Truncate (orig_len + J.size_limit_hint / 100)).AddRaw
                (ascii "<truncated ")).AddRaw (decimalInt (delta - keep))).AddRaw
                (ascii " bytes>")).push_back last_name with
      | none => none
      | some o' => some (o'.AddRaw [34])
    else some (o.AddRaw [34])
  else some (o.AddRaw [34])

/-- The statements of JSON.cc, lines 91 to 96: a name that is not empty is written between
double quotes and followed by a colon. -/
def Out.addName (o : Out) (name : List Nat) : Out :=
  if name.length ≠ 0 then ((o.AddRaw [34]).AddRaw name).AddRaw [34, 58] else o

mutual
/-- The member function `JSON::DescribeInternal` (JSON.cc, lines 86 to 282).  The result is
`none` when a null pointer is dereferenced (`ptruncated` at a `push_back`, or the result of
`gmtime` inside `strftime`), and otherwise the value returned together with the effect on the
output. -/
def DescribeInternal (P : Platform) (J : JSON) (o : Out) :
    Value → List Nat → List Nat → Option (Bool × Out)
  | .mk type present int_val uint_val port subnet_val addr_val double_val string_val
      set_val vector_val, name, last_name =>
    if !present then some (true, o)
    else
      let o1 := o.addName name
      match type with
      | .TYPE_BOOL =>
        some (true, o1.AddRaw (if int_val = 0 then ascii "false" else ascii "true"))
      | .TYPE_INT => some (true, o1.AddRaw (decimalInt int_val))
      | .TYPE_COUNT | .TYPE_COUNTER =>
        if uint_val ≥ INT64_MAX then
          some (true, (o1.Error (.count_too_large uint_val)).AddRaw (ascii "null"))
        else some (true, o1.AddRaw (decimal uint_val))
      | .TYPE_PORT => some (true, o1.AddRaw (decimal port))
      | .TYPE_SUBNET =>
        some (true, ((o1.AddRaw [34]).AddRaw (P.render_subnet subnet_val)).AddRaw [34])
      | .TYPE_ADDR =>
        some (true, ((o1.AddRaw [34]).AddRaw (P.render_addr addr_val)).AddRaw [34])
      | .TYPE_DOUBLE | .TYPE_INTERVAL => some (true, o1.AddRaw (P.add_double double_val))
      | .TYPE_TIME =>
        match J.timestamps with
        | .TS_ISO8601 =>
          match P.iso8601 double_val with
          | .fault => none
          | .text buffer2 => some (true, ((o1.AddRaw [34]).AddRaw buffer2).AddRaw [34])
          | .failed => some (true, o1.Error .strftime_error)
        | .TS_EPOCH => some (true, o1.AddRaw (P.add_double double_val))
        | .TS_MILLIS =>
          if P.to_millis double_val < INT64_MAX then
            some (true, o1.AddRaw (decimal (P.to_millis double_val)))
          else
            some (true, (o1.Error (.time_too_large (P.to_millis double_val))).AddRaw
              (ascii "null"))
      | .TYPE_ENUM | .TYPE_STRING | .TYPE_FILE | .TYPE_FUNC =>
        match finishString J (o1.AddRaw [34]).desc.length
            (escapeLoop P (o1.AddRaw [34]) string_val) last_name with
        | none => none
        | some o2 => some (true, o2)
      | .TYPE_TABLE =>
        match describeElements P J (o1.AddRaw [91]) 0 set_val name last_name with
        | none => none
        | some o2 => some (true, o2.AddRaw [93])
      | .TYPE_VECTOR =>
        match describeElements P J (o1.AddRaw [91]) 0 vector_val name last_name with
        | none => none
        | some o2 => some (true, o2.AddRaw [93])
      | .TYPE_OTHER => some (false, o1)
/-- The loops over the elements of a set or vector (JSON.cc, lines 237 to 249 and 259 to
271), from index `j` on: a comma before every element but the first, the element described
without a name and with `name` as its `last_name`, and after each element the check of the
size limit, which records `last_name` and leaves the loop. -/
def describeElements (P : Platform) (J : JSON) (o : Out) (j : Nat) :
    List Value → List Nat → List Nat → Option Out
  | [], _, _ => some o
  | v :: rest, name, last_name =>
    match DescribeInternal P J (if j > 0 then o.AddRaw [44] else o) v [] name with
    | none => none
    | some (_, o1) =>
      if J.size_limit_hint ≠ 0 ∧ o1.desc.length > J.size_limit_hint then
        o1.push_back last_name
      else describeElements P J o1 (j + 1) rest name last_name
end

/-- The loop over the fields of `JSON::Describe` (JSON.cc, lines 40 to 55), from index `i`
on.  The arrays `fields` and `vals` are given as the list of their pairs. -/
def describeFields (P : Platform) (J : JSON) (i : Nat) (o : Out) :
    List (Field × Value) → Option (Bool × Out)
  | [] => some (true, o)
  | (f, v) :: rest =>
    match DescribeInternal P J
        (if i > 0 ∧ o.desc.length > 0 ∧ o.desc.getLast? ≠ some 44 ∧ o.desc.getLast? ≠ some 123
              ∧ o.desc.getLast? ≠ some 91 ∧ v.present = true
          then o.AddRaw [44] else o) v f.name f.name with
    | none => none
    | some (false, o1) => some (false, o1)
    | some (true, o1) => describeFields P J (i + 1) o1 rest

/-- The loop over the names of truncated fields (JSON.cc, lines 62 to 70), from index `i`
on. -/
def addTruncated (i : Nat) (o : Out) : List (List Nat) → Out
  | [] => o
  | n :: rest =>
    addTruncated (i + 1)
      ((((if i > 0 then o.AddRaw (ascii ", ") else o).AddRaw [34]).AddRaw n).AddRaw [34]) rest

/-- The member function `JSON::Describe` for a record (JSON.cc, lines 28 to 79), called with
the buffer contents `desc` and the errors reported so far.  The result is `none` when a
null pointer is dereferenced; the vector of truncated names is local to the call. -/
def Describe (P : Platform) (J : JSON) (desc : List Nat) (errors : List ErrorReport)
    (fields : List (Field × Value)) : Option (Bool × List Nat × List ErrorReport) :=
  let o0 : Out :=
    if J.surrounding_braces then
      { desc := desc ++ [123], truncated := some [], errors := errors }
    else { desc := desc, truncated := none, errors := errors }
  match describeFields P J 0 o0 fields with
  | none => none
  | some (false, o1) => some (false, o1.desc, o1.errors)
  | some (true, o1) =>
    let truncated := o1.truncated.getD []
    let o2 :=
      if truncated.length ≠ 0 then
        (addTruncated 0 (o1.AddRaw (ascii ", _truncated: [")) truncated).AddRaw [93]
      else o1
    let o3 := if J.surrounding_braces then o2.AddRaw [125] else o2
    some (true, o3.desc, o3.errors)

/-- The member function `JSON::Describe` for a single value (JSON.cc, lines 81 to 84): the
call `DescribeInternal(desc, val, name, name, 0)`. -/
def DescribeValue (P : Platform) (J : JSON) (desc : List Nat) (errors : List ErrorReport)
    (val : Value) (name : List Nat) : Option (Bool × List Nat × List ErrorReport) :=
  match DescribeInternal P J { desc := desc, truncated := none, errors := errors }
      val name name with
  | none => none
  | some (r, o) => some (r, o.desc, o.errors)

/-! ## Notions used to state the properties -/

/-- The bytes written as themselves: printable ASCII (32 to 126) other than the double
quote, the single quote, the backslash and the ampersand. -/
def isPlain (b : Fin 256) : Bool :=
  decide (32 ≤ b.val) && decide (b.val ≤ 126) && decide (b.val ≠ 34) && decide (b.val ≠ 39)
    && decide (b.val ≠ 92) && decide (b.val ≠ 38)

/-- The piece of output for one input byte: the byte itself when it is plain, and otherwise
backslash, `u`, `0`, `0` and the two characters that `bytetohex` stores for the byte. -/
def escapePiece (P : Platform) (b : Fin 256) : List Nat :=
  if isPlain b then [b.val]
  else [92, 117, 48, 48, (P.bytetohex b.val).1, (P.bytetohex b.val).2]

/-- The text in front of a value: the quoted name and a colon, or nothing for an empty
name. -/
def nameHeader (name : List Nat) : List Nat :=
  if name.length ≠ 0 then [34] ++ name ++ [34, 58] else []

/-- The rendering of a value: what `DescribeInternal` writes for it, without a name, into an
empty buffer. -/
def valueText (P : Platform) (J : JSON) (v : Value) : List Nat :=
  match DescribeInternal P J { desc := [], truncated := none, errors := [] } v [] [] with
  | some (_, o) => o.desc
  | none => []

/-- The rendering of a field: its name header followed by the rendering of its value. -/
def fieldText (P : Platform) (J : JSON) (fv : Field × Value) : List Nat :=
  nameHeader fv.1.name ++ valueText P J fv.2

/-- The values with a case in the switch of `DescribeInternal`. -/
def Value.supported (v : Value) : Bool :=
  decide (v.type ≠ TypeTag.TYPE_OTHER)

/-- The member `val.double_val` of a value. -/
def Value.double_val : Value → Nat
  | .mk _ _ _ _ _ _ _ d _ _ _ => d

/-- The number denoted by a sequence of decimal digit characters. -/
def decimalValue (l : List Nat) : Nat :=
  l.foldl (fun a d => 10 * a + (d - 48)) 0

/-- The text neither begins with a comma nor ends with a comma, an opening brace or an
opening bracket. -/
def cleanEnds (t : List Nat) : Prop :=
  t.head? ≠ some 44 ∧ t.getLast? ≠ some 44 ∧ t.getLast? ≠ some 123 ∧ t.getLast? ≠ some 91

/-- The text that `ODesc::Add` writes for a `double` is a number text: it is not empty and
contains no comma, opening brace or opening bracket. -/
def Platform.numberText (P : Platform) : Prop :=
  ∀ d : Nat, P.add_double d ≠ [] ∧ ∀ b ∈ P.add_double d, b ≠ 44 ∧ b ≠ 123 ∧ b ≠ 91

/-- The field writes at least one byte when it is present: it has a name, or its value is
not a time stamp for which `strftime` returns 0. -/
def writesText (P : Platform) (J : JSON) (fv : Field × Value) : Prop :=
  fv.1.name ≠ [] ∨ fv.2.type ≠ TypeTag.TYPE_TIME ∨ J.timestamps ≠ TimeFormat.TS_ISO8601 ∨
    P.iso8601 fv.2.double_val ≠ IsoResult.failed

mutual
/-- Every time stamp that the formatter visits in the value under an unlimited size (the
value itself when present, and the elements of a present set or vector) is one that `gmtime`
converts when the ISO 8601 format is selected. -/
def Value.convertible (P : Platform) (J : JSON) : Value → Bool
  | .mk type present _ _ _ _ _ double_val _ set_val vector_val =>
    !present ||
      match type with
      | .TYPE_TIME =>
        !(decide (J.timestamps = TimeFormat.TS_ISO8601) &&
            decide (P.iso8601 double_val = IsoResult.fault))
      | .TYPE_TABLE => allConvertible P J set_val
      | .TYPE_VECTOR => allConvertible P J vector_val
      | _ => true
/-- Every value of the list is convertible. -/
def allConvertible (P : Platform) (J : JSON) : List Value → Bool
  | [] => true
  | v :: rest => v.convertible P J && allConvertible P J rest
end

/-- The texts joined by single commas. -/
def commaSeparated : List (List Nat) → List Nat
  | [] => []
  | [t] => t
  | t :: t' :: ts => t ++ [44] ++ commaSeparated (t' :: ts)

/-- The texts, each preceded by a comma. -/
def commaPrefixed : List (List Nat) → List Nat
  | [] => []
  | t :: ts => [44] ++ t ++ commaPrefixed ts

/-- The renderings of the present fields, in field order. -/
def presentTexts (P : Platform) (J : JSON) (fields : List (Field × Value)) : List (List Nat) :=
  (fields.filter (fun fv => fv.2.present)).map (fieldText P J)

/-- The escaped body of a string-like value: one piece per byte of `val.string_val`, in
input order. -/
def escapedBody (P : Platform) (v : Value) : List Nat :=
  v.string_val.flatMap (escapePiece P)

/-- The name recorded for a truncated field: `last_name`, or `???` when it is empty. -/
def truncatedName (last_name : List Nat) : List Nat :=
  if last_name.length ≠ 0 then last_name else ascii "???"

/-- The byte is a hexadecimal digit (`0` to `9`, `a` to `f` or `A` to `F`). -/
def isHexDigit (b : Nat) : Bool :=
  (decide (48 ≤ b) && decide (b ≤ 57)) || (decide (97 ≤ b) && decide (b ≤ 102))
    || (decide (65 ≤ b) && decide (b ≤ 70))

/-- Scan of a JSON string body from the left; `k` is the number of characters of an escape
read so far (0 outside an escape).  The body is accepted when it holds no raw double quote
and every backslash starts a complete escape of the six characters backslash, `u`, `0`, `0`
and two hexadecimal digits. -/
def wellFormedFrom : Nat → List Nat → Bool
  | 0, [] => true
  | _ + 1, [] => false
  | 0, b :: rest =>
    if b = 92 then wellFormedFrom 1 rest
    else if b = 34 then false
    else wellFormedFrom 0 rest
  | 1, b :: rest => decide (b = 117) && wellFormedFrom 2 rest
  | 2, b :: rest => decide (b = 48) && wellFormedFrom 3 rest
  | 3, b :: rest => decide (b = 48) && wellFormedFrom 4 rest
  | 4, b :: rest => isHexDigit b && wellFormedFrom 5 rest
  | _ + 5, b :: rest => isHexDigit b && wellFormedFrom 0 rest

/-- The text is a well-formed JSON string body. -/
def wellFormedBody (body : List Nat) : Bool :=
  wellFormedFrom 0 body

/-- The helper `bytetohex` stores two hexadecimal digits for every byte. -/
def Platform.hexHelper (P : Platform) : Prop :=
  ∀ b : Nat, isHexDigit (P.bytetohex b).1 = true ∧ isHexDigit (P.bytetohex b).2 = true

/-- Two lower-case hexadecimal digits of a byte, high nibble first. -/
def hexDigits (b : Nat) : Nat × Nat :=
  ((ascii "0123456789abcdef").getD (b / 16 % 16) 48, (ascii "0123456789abcdef").getD (b % 16) 48)

/-- A sample target: signed `char`, hexadecimal digits in lower case, and stand-in texts for
the renderings of doubles, addresses, subnets and time stamps, a `double` being given by its
number of seconds.  As with a 64-bit `time_t` and a 32-bit `int` year, `gmtime` returns a null
pointer beyond 67767976233532799 seconds (the end of the year 2147485547). -/
def samplePlatform : Platform :=
  { char_signed := true,
    bytetohex := hexDigits,
    add_double := fun d => decimal d,
    render_addr := fun a => decimal a,
    render_subnet := fun s => decimal s,
    iso8601 := fun t =>
      if t > 67767976233532799 then IsoResult.fault else IsoResult.text (decimal t),
    to_millis := fun d => d * 1000 }

/-- The field with the given name. -/
def Field.named (s : String) : Field :=
  { name := ascii s }

/-- A present string value with the given bytes. -/
def Value.ofString (s : List (Fin 256)) : Value :=
  .mk .TYPE_STRING true 0 0 0 0 0 0 s [] []

/-- A present count value. -/
def Value.ofCount (n : Nat) : Value :=
  .mk .TYPE_COUNT true 0 n 0 0 0 0 [] [] []

/-- A present boolean value. -/
def Value.ofBool (b : Bool) : Value :=
  .mk .TYPE_BOOL true (if b then 1 else 0) 0 0 0 0 0 [] [] []

/-- A present time stamp. -/
def Value.ofTime (t : Nat) : Value :=
  .mk .TYPE_TIME true 0 0 0 0 0 t [] [] []

/-- A value that is not present. -/
def Value.absent (t : TypeTag) : Value :=
  .mk t false 0 0 0 0 0 0 [] [] []

/-- A present set with the given elements. -/
def Value.ofSet (vs : List Value) : Value :=
  .mk .TYPE_TABLE true 0 0 0 0 0 0 [] vs []

end threading.formatter

/-! # Theorems -/

namespace comm

/-! ## Lemmas on association lists -/

theorem mapFind_append_none {κ ν : Type} [DecidableEq κ] (k : κ) (v : ν) (m : List (κ × ν))
    (h : mapFind k m = none) : mapFind k (mapInsert k v m) = some v := by
  induction m with
  | nil => simp [mapInsert, mapFind]
  | cons e rest ih =>
    obtain ⟨k', v'⟩ := e
    simp only [mapFind] at h
    by_cases hk : k' = k
    · simp [hk] at h
    · simp only [hk, if_false] at h
      have := ih h
      simpa [mapInsert, mapFind, hk] using this

theorem mapErase_of_absent {κ ν : Type} [DecidableEq κ] (k : κ) (m : List (κ × ν))
    (h : mapFind k m = none) : mapErase k m = m := by
  induction m with
  | nil => rfl
  | cons e rest ih =>
    obtain ⟨k', v'⟩ := e
    simp only [mapFind] at h
    by_cases hk : k' = k
    · simp [hk] at h
    · simp only [hk, if_false] at h
      simp [mapErase, hk, ih h]

theorem mapErase_mapInsert {κ ν : Type} [DecidableEq κ] (k : κ) (v : ν) (m : List (κ × ν))
    (h : mapFind k m = none) : mapErase k (mapInsert k v m) = m := by
  induction m with
  | nil => simp [mapInsert, mapErase]
  | cons e rest ih =>
    obtain ⟨k', v'⟩ := e
    simp only [mapFind] at h
    by_cases hk : k' = k
    · simp [hk] at h
    · simp only [hk, if_false] at h
      have := ih h
      simp only [mapInsert] at this
      simp [mapInsert, mapErase, hk, this]

theorem mapFind_mapErase {κ ν : Type} [DecidableEq κ] (k : κ) (m : List (κ × ν)) :
    mapFind k (mapErase k m) = none := by
  induction m with
  | nil => rfl
  | cons e rest ih =>
    obtain ⟨k', v'⟩ := e
    by_cases hk : k' = k
    · simp [mapErase, hk, ih]
    · simp [mapErase, mapFind, hk, ih]

theorem subscribeIn_twice (table : List (String × MessageQueue)) (pfx : String) (q q' : Nat)
    (h : (subscribeIn table pfx q).1 = true) :
    subscribeIn (subscribeIn table pfx q).2 pfx q' = (false, (subscribeIn table pfx q).2) := by
  unfold subscribeIn at h ⊢
  cases hf : mapFind pfx table with
  | some x => simp [hf] at h
  | none =>
    simp only [hf]
    rw [mapFind_append_none pfx _ table hf]

/-- Claim C1: for each of the three categories (print, event, log) and every topic prefix,
once `SubscribeTo<Category>(prefix)` has succeeded, a second call with the identical prefix
returns false and leaves the whole manager, in particular all three subscription tables
(keys and number of entries), unchanged. -/
theorem subscribe_twice_fails (c : Category) (m : Manager) (pfx : String) (q q' : Nat)
    (h : (SubscribeTo c m pfx q).1 = true) :
    SubscribeTo c (SubscribeTo c m pfx q).2 pfx q' = (false, (SubscribeTo c m pfx q).2) := by
  cases c
  · simp only [SubscribeTo] at h ⊢
    unfold SubscribeToPrints at h ⊢
    by_cases he : (Enabled m).1 = true
    · simp only [he, Bool.not_true, Bool.false_eq_true, if_false] at h ⊢
      have h2 := subscribeIn_twice m.print_subscriptions pfx q q' h
      simp [Enabled] at he
      simp [Enabled, he, h2]
    · simp [he] at h
  · simp only [SubscribeTo] at h ⊢
    unfold SubscribeToEvents at h ⊢
    by_cases he : (Enabled m).1 = true
    · simp only [he, Bool.not_true, Bool.false_eq_true, if_false] at h ⊢
      have h2 := subscribeIn_twice m.event_subscriptions pfx q q' h
      simp [Enabled] at he
      simp [Enabled, he, h2]
    · simp [he] at h
  · simp only [SubscribeTo] at h ⊢
    unfold SubscribeToLogs at h ⊢
    by_cases he : (Enabled m).1 = true
    · simp only [he, Bool.not_true, Bool.false_eq_true, if_false] at h ⊢
      have h2 := subscribeIn_twice m.log_subscriptions pfx q q' h
      simp [Enabled] at he
      simp [Enabled, he, h2]
    · simp [he] at h

/-- Witness for C1: on an enabled manager the first subscription to "bro/event" succeeds and
the second one is rejected without any change. -/
theorem subscribe_twice_fails_witness :
    (SubscribeTo Category.event Manager.enabled0 "bro/event" 1).1 = true ∧
      SubscribeTo Category.event
          (SubscribeTo Category.event Manager.enabled0 "bro/event" 1).2 "bro/event" 2
        = (false, (SubscribeTo Category.event Manager.enabled0 "bro/event" 1).2) :=
  ⟨by decide, subscribe_twice_fails Category.event Manager.enabled0 "bro/event" 1 2 (by decide)⟩

/-! ## Pending query tracker -/

theorem Connect_success (m : Manager) (A : String) (P r c : Nat)
    (h : (Connect m A P r c).1 = true) :
    m.endpoint.isSome = true ∧ mapFind (A, P) m.peers = none ∧
    (Connect m A P r c).2
      = { m with peers := mapInsert (A, P) { retry_interval := r, conn := c } m.peers } := by
  unfold Connect at h ⊢
  by_cases he : m.endpoint.isSome = true
  · cases hf : mapFind (A, P) m.peers with
    | some x => simp [Enabled, he, hf] at h
    | none => simp [Enabled, he]
  · simp [Enabled, he] at h

theorem Connect_registered (m : Manager) (A : String) (P r c : Nat) (p : Peering)
    (h : mapFind (A, P) m.peers = some p) : Connect m A P r c = (false, m) := by
  unfold Connect
  by_cases he : (Enabled m).1 = true <;> simp [he, h]

/-- Claim C3: when `Connect(A, P, r1)` has succeeded, the registry records `r1` for
`(A, P)`, and in every manager state in which that entry is still registered (in particular
the state right after the first call) `Connect(A, P, r2)` returns false and changes nothing,
so the retry interval `r1` stays recorded. -/
theorem connect_twice_fails (m : Manager) (A : String) (P r1 r2 c1 c2 : Nat)
    (h : (Connect m A P r1 c1).1 = true) :
    mapFind (A, P) (Connect m A P r1 c1).2.peers
      = some { retry_interval := r1, conn := c1 } ∧
    Connect (Connect m A P r1 c1).2 A P r2 c2 = (false, (Connect m A P r1 c1).2) ∧
    ∀ m' : Manager,
      mapFind (A, P) m'.peers = mapFind (A, P) (Connect m A P r1 c1).2.peers →
        Connect m' A P r2 c2 = (false, m') ∧
        (mapFind (A, P) (Connect m' A P r2 c2).2.peers).map (fun p => p.retry_interval)
          = some r1 := by
  obtain ⟨_, hnone, hst⟩ := Connect_success m A P r1 c1 h
  have hfind : mapFind (A, P) (Connect m A P r1 c1).2.peers
      = some { retry_interval := r1, conn := c1 } := by
    rw [hst]
    exact mapFind_append_none (A, P) _ m.peers hnone
  refine ⟨hfind, Connect_registered _ A P r2 c2 _ hfind, ?_⟩
  intro m' hm'
  rw [hfind] at hm'
  have hc := Connect_registered m' A P r2 c2 _ hm'
  refine ⟨hc, ?_⟩
  rw [hc]
  simp [hm']

/-- Witness for C3: connecting twice to ("127.0.0.1", 9999) on an enabled manager. -/
theorem connect_twice_fails_witness :
    (Connect Manager.enabled0 "127.0.0.1" 9999 10 1).1 = true ∧
    Connect (Connect Manager.enabled0 "127.0.0.1" 9999 10 1).2 "127.0.0.1" 9999 30 2
      = (false, (Connect Manager.enabled0 "127.0.0.1" 9999 10 1).2) :=
  ⟨by decide, (connect_twice_fails Manager.enabled0 "127.0.0.1" 9999 10 30 1 2 (by decide)).2.1⟩

/-- Claim C4: `Disconnect(address, port)` on a pair with no entry in the peer registry
returns false and leaves the manager unchanged.  Consequently, after a successful
`Connect(A, P)` the first `Disconnect(A, P)` returns true and removes exactly that entry (the
registry is again what it was before the connect), and a second `Disconnect(A, P)` returns
false and changes nothing. -/
theorem disconnect_unregistered (m : Manager) (A : String) (P : Nat) :
    (mapFind (A, P) m.peers = none → Disconnect m A P = (false, m)) ∧
    ∀ r c : Nat, (Connect m A P r c).1 = true →
      Disconnect (Connect m A P r c).2 A P = (true, m) ∧
      Disconnect (Disconnect (Connect m A P r c).2 A P).2 A P
        = (false, (Disconnect (Connect m A P r c).2 A P).2) := by
  have hun : ∀ m' : Manager, mapFind (A, P) m'.peers = none →
      Disconnect m' A P = (false, m') := by
    intro m' h
    simp [Disconnect, h]
  refine ⟨hun m, ?_⟩
  intro r c h
  obtain ⟨_, hnone, hst⟩ := Connect_success m A P r c h
  have hfirst : Disconnect (Connect m A P r c).2 A P = (true, m) := by
    rw [hst]
    simp only [Disconnect]
    rw [mapFind_append_none (A, P) _ m.peers hnone]
    simp [mapErase_mapInsert (A, P) _ m.peers hnone]
  refine ⟨hfirst, ?_⟩
  rw [hfirst]
  exact hun m hnone

/-- Witness for C4: disconnecting an unregistered peer, and connect followed by two
disconnects, on an enabled manager. -/
theorem disconnect_unregistered_witness :
    Disconnect Manager.enabled0 "10.0.0.1" 47757 = (false, Manager.enabled0) ∧
    Disconnect (Connect Manager.enabled0 "10.0.0.1" 47757 5 1).2 "10.0.0.1" 47757
      = (true, Manager.enabled0) :=
  ⟨(disconnect_unregistered Manager.enabled0 "10.0.0.1" 47757).1 (by decide),
   ((disconnect_unregistered Manager.enabled0 "10.0.0.1" 47757).2 5 1 (by decide)).1⟩

/-! ## Data store registry -/

/-- Claim C5: `AddStore` of a valid handle with key `(id, k)` succeeds (and the handle is
then found by `LookupStore`) when no entry with that key is registered, and fails, leaving
the manager unchanged, when one is; after `CloseStore(id, k)` has returned true,
`LookupStore(id, k)` returns absent; and `LookupStore` never changes the manager. -/
theorem store_registry (m : Manager) (id : String) (k : StoreType) (h : StoreHandleVal)
    (hvalid : h.valid = true) (hkey : (h.id, h.store_type) = (id, k)) :
    (mapFind (id, k) m.data_stores = none →
        (AddStore m h).1 = true ∧ (LookupStore (AddStore m h).2 id k).1 = some h) ∧
    (mapFind (id, k) m.data_stores ≠ none → AddStore m h = (false, m)) ∧
    ((CloseStore m id k).1 = true → (LookupStore (CloseStore m id k).2.1 id k).1 = none) ∧
    (LookupStore m id k).2 = m := by
  obtain ⟨hid, hk⟩ := Prod.mk.inj hkey
  refine ⟨?_, ?_, ?_, rfl⟩
  · intro hnone
    have hnone' : mapFind (h.id, h.store_type) m.data_stores = none := by
      rw [hid, hk]; exact hnone
    simp only [AddStore, hvalid, hnone', LookupStore]
    refine ⟨by simp, ?_⟩
    rw [← hid, ← hk]
    simpa using mapFind_append_none (h.id, h.store_type) h m.data_stores hnone'
  · intro hsome
    cases hf : mapFind (id, k) m.data_stores with
    | none => exact absurd hf hsome
    | some x =>
      have hf' : mapFind (h.id, h.store_type) m.data_stores = some x := by
        rw [hid, hk]; exact hf
      simp [AddStore, hvalid, hf']
  · intro hclose
    cases hf : mapFind (id, k) m.data_stores with
    | none => simp [CloseStore, hf] at hclose
    | some x =>
      simp only [CloseStore, hf, LookupStore]
      exact mapFind_mapErase (id, k) m.data_stores

/-- Witness for C5: the scenario of the specification.  `AddStore` of the master store
"cache" succeeds, a second `AddStore` fails, and after `CloseStore` the lookup is absent. -/
theorem store_registry_witness :
    (AddStore Manager.enabled0 cacheHandle).1 = true ∧
    AddStore (AddStore Manager.enabled0 cacheHandle).2 cacheHandle
      = (false, (AddStore Manager.enabled0 cacheHandle).2) ∧
    (LookupStore (CloseStore (AddStore Manager.enabled0 cacheHandle).2
        "cache" StoreType.MASTER).2.1 "cache" StoreType.MASTER).1 = none :=
  ⟨((store_registry Manager.enabled0 "cache" StoreType.MASTER cacheHandle rfl rfl).1
      (by decide)).1,
   (store_registry (AddStore Manager.enabled0 cacheHandle).2 "cache" StoreType.MASTER
      cacheHandle rfl rfl).2.1 (by decide),
   (store_registry (AddStore Manager.enabled0 cacheHandle).2 "cache" StoreType.MASTER
      cacheHandle rfl rfl).2.2.1 (by decide)⟩

/-! ## Endpoint -/

/-- Claim C7: `Enabled()` returns true exactly when the manager holds an endpoint, and the
call changes no part of the manager (endpoint, peers, subscriptions, stores and pending
queries are all as before). -/
theorem enabled_pure (m : Manager) :
    ((Enabled m).1 = true ↔ m.endpoint ≠ none) ∧
    (Enabled m).2 = m ∧
    (Enabled m).2.endpoint = m.endpoint ∧
    (Enabled m).2.peers = m.peers ∧
    (Enabled m).2.print_subscriptions = m.print_subscriptions ∧
    (Enabled m).2.event_subscriptions = m.event_subscriptions ∧
    (Enabled m).2.log_subscriptions = m.log_subscriptions ∧
    (Enabled m).2.data_stores = m.data_stores ∧
    (Enabled m).2.pending_queries = m.pending_queries := by
  refine ⟨?_, rfl, rfl, rfl, rfl, rfl, rfl, rfl, rfl⟩
  cases h : m.endpoint <;> simp [Enabled, h]

end comm

namespace threading.formatter

/-! ## Decimal digits -/

theorem decimalAux_digits (fuel : Nat) : ∀ (n : Nat) (acc : List Nat),
    (∀ b ∈ acc, 48 ≤ b ∧ b ≤ 57) → ∀ b ∈ decimalAux fuel n acc, 48 ≤ b ∧ b ≤ 57 := by
  induction fuel with
  | zero => intro n acc h; simpa [decimalAux] using h
  | succ k ih =>
    intro n acc h
    unfold decimalAux
    split
    · intro b hb
      rcases List.mem_cons.mp hb with hb | hb
      · subst hb; omega
      · exact h b hb
    · apply ih
      intro b hb
      rcases List.mem_cons.mp hb with hb | hb
      · subst hb; omega
      · exact h b hb

theorem decimalAux_ne_nil (fuel : Nat) : ∀ (n : Nat) (acc : List Nat),
    acc ≠ [] → decimalAux fuel n acc ≠ [] := by
  induction fuel with
  | zero => intro n acc h; simpa [decimalAux] using h
  | succ k ih =>
    intro n acc h
    unfold decimalAux
    split
    · simp
    · exact ih _ _ (by simp)

theorem decimal_digits (n : Nat) : ∀ b ∈ decimal n, 48 ≤ b ∧ b ≤ 57 :=
  decimalAux_digits (n + 1) n [] (by simp)

theorem decimal_ne_nil (n : Nat) : decimal n ≠ [] := by
  unfold decimal decimalAux
  split
  · simp
  · exact decimalAux_ne_nil _ _ _ (by simp)

theorem decimalAux_append (fuel : Nat) : ∀ (n : Nat) (acc : List Nat),
    decimalAux fuel n acc = decimalAux fuel n [] ++ acc := by
  induction fuel with
  | zero => intro n acc; simp [decimalAux]
  | succ k ih =>
    intro n acc
    unfold decimalAux
    split
    · simp
    · rw [ih (n / 10) ((48 + n % 10) :: acc), ih (n / 10) [48 + n % 10]]
      simp

theorem decimalAux_fuel (n : Nat) : ∀ (f g : Nat) (acc : List Nat), n < f → n < g →
    decimalAux f n acc = decimalAux g n acc := by
  induction n using Nat.strong_induction_on with
  | _ n ih =>
    intro f g acc hf hg
    obtain ⟨f', rfl⟩ : ∃ f', f = f' + 1 := ⟨f - 1, by omega⟩
    obtain ⟨g', rfl⟩ : ∃ g', g = g' + 1 := ⟨g - 1, by omega⟩
    unfold decimalAux
    split
    · rfl
    · exact ih (n / 10) (by omega) f' g' _ (by omega) (by omega)

/-- The text written for an unsigned integer denotes that integer. -/
theorem decimalValue_decimal (n : Nat) : decimalValue (decimal n) = n := by
  induction n using Nat.strong_induction_on with
  | _ n ih =>
    unfold decimal decimalAux
    split
    · simp [decimalValue]
    · rename_i h10
      have h2 : n / 10 < n := by omega
      rw [decimalAux_append, decimalAux_fuel (n / 10) n (n / 10 + 1) [] h2 (by omega)]
      have := ih (n / 10) h2
      unfold decimal at this
      unfold decimalValue at this ⊢
      rw [List.foldl_append, this]
      simp
      omega

/-! ## Strings -/

theorem needsEscape_eq (P : Platform) (b : Fin 256) : needsEscape P b = !isPlain b := by
  obtain ⟨n, hn⟩ := b
  unfold needsEscape isPlain charValue
  by_cases hs : P.char_signed = true <;> by_cases h128 : 128 ≤ n <;>
    simp only [hs, h128, true_and, false_and, and_true, if_true, if_false] <;>
    rw [Bool.eq_iff_iff] <;> simp <;> omega

theorem escapeLoop_eq (P : Platform) (data : List (Fin 256)) : ∀ o : Out,
    escapeLoop P o data = o.AddRaw (data.flatMap (escapePiece P)) := by
  induction data with
  | nil => intro o; simp [escapeLoop, Out.AddRaw]
  | cons b rest ih =>
    intro o
    unfold escapeLoop
    rw [needsEscape_eq]
    by_cases hp : isPlain b = true
    · simp [hp, ih, Out.AddRaw, escapePiece]
    · simp only [Bool.not_eq_true] at hp
      simp [hp, ih, Out.AddRaw, escapePiece, ascii]

theorem escaped_length (P : Platform) (data : List (Fin 256)) :
    (data.flatMap (escapePiece P)).length
      = data.length + 5 * (data.filter (fun b => !isPlain b)).length := by
  induction data with
  | nil => rfl
  | cons b rest ih =>
    by_cases hp : isPlain b = true
    · simp [List.flatMap_cons, List.filter_cons, hp, escapePiece, ih]; omega
    · simp only [Bool.not_eq_true] at hp
      simp [List.flatMap_cons, List.filter_cons, hp, escapePiece, ih]; omega

theorem finishString_unlimited (J : JSON) (n : Nat) (o : Out) (last_name : List Nat)
    (hlim : J.size_limit_hint = 0) : finishString J n o last_name = some (o.AddRaw [34]) := by
  simp [finishString, hlim]

/-- Claim C8: for a present string-like value (enum, string, file, func) rendered by
`DescribeInternal` without a size limit, the call returns true and writes the name header,
an opening double quote, the body and a closing double quote.  The body is the
concatenation, in input order, of one piece per input byte: the byte itself for printable
ASCII other than the double quote, the single quote, the backslash and the ampersand, and
otherwise backslash, `u`, `0`, `0` and the two hexadecimal characters of the byte.  Its length
is `n + 5k` for `n` input bytes of which `k` are escaped. -/
theorem string_body_unlimited (P : Platform) (J : JSON) (o : Out) (v : Value)
    (name last_name : List Nat)
    (htype : v.type = TypeTag.TYPE_ENUM ∨ v.type = TypeTag.TYPE_STRING ∨
      v.type = TypeTag.TYPE_FILE ∨ v.type = TypeTag.TYPE_FUNC)
    (hpresent : v.present = true) (hlim : J.size_limit_hint = 0) :
    DescribeInternal P J o v name last_name
      = some (true, (((o.addName name).AddRaw [34]).AddRaw
          (v.string_val.flatMap (escapePiece P))).AddRaw [34]) ∧
    (v.string_val.flatMap (escapePiece P)).length
      = v.string_val.length + 5 * (v.string_val.filter (fun b => !isPlain b)).length := by
  refine ⟨?_, escaped_length P _⟩
  obtain ⟨type, present, int_val, uint_val, port, subnet_val, addr_val, double_val,
    string_val, set_val, vector_val⟩ := v
  simp only [Value.type, Value.present, Value.string_val] at htype hpresent ⊢
  subst hpresent
  rcases htype with h | h | h | h <;> subst h <;>
    simp [DescribeInternal, finishString_unlimited _ _ _ _ hlim, escapeLoop_eq]

/-- Witness for C8: the string `h"i` is written as `"h\u0022i"` on the sample target. -/
theorem string_body_unlimited_witness :
    DescribeInternal samplePlatform (JSON.new TimeFormat.TS_EPOCH 0)
        { desc := [], truncated := none, errors := [] } (Value.ofString [104, 34, 105]) [] []
      = some (true, { desc := ascii "\"h\\u0022i\"", truncated := none, errors := [] }) := by
  have h := (string_body_unlimited samplePlatform (JSON.new TimeFormat.TS_EPOCH 0)
    { desc := [], truncated := none, errors := [] } (Value.ofString [104, 34, 105]) [] []
    (Or.inr (Or.inl rfl)) rfl rfl).1
  rw [h]
  decide

/-! ## Counts -/

/-- Counterexample for C10: the count 2^63 - 1 fits in a signed 64-bit integer, yet it is
rendered as `null` and an error is reported. -/
theorem count_int64_max_is_null :
    (9223372036854775807 : Nat) = 2 ^ 63 - 1 ∧
    DescribeInternal samplePlatform (JSON.new TimeFormat.TS_EPOCH 0)
        { desc := [], truncated := none, errors := [] }
        (Value.ofCount 9223372036854775807) [] []
      = some (true, { desc := ascii "null", truncated := none,
                      errors := [ErrorReport.count_too_large 9223372036854775807] }) := by
  constructor
  · norm_num
  · decide

/-- Claim C10, amended: a present count or counter value is rendered by `DescribeInternal`
as the literal `null`, with an error reported, exactly when it is at least 2^63 - 1
(`INT64_MAX`); every count value from 0 to 2^63 - 2 inclusive is rendered as its decimal
digits, without an error. -/
theorem count_rendering (P : Platform) (J : JSON) (o : Out) (v : Value)
    (name last_name : List Nat)
    (htype : v.type = TypeTag.TYPE_COUNT ∨ v.type = TypeTag.TYPE_COUNTER)
    (hpresent : v.present = true) :
    (2 ^ 63 - 1 ≤ v.uint_val →
      DescribeInternal P J o v name last_name
        = some (true, ((o.addName name).Error (ErrorReport.count_too_large v.uint_val)).AddRaw
            (ascii "null"))) ∧
    (v.uint_val ≤ 2 ^ 63 - 2 →
      DescribeInternal P J o v name last_name
        = some (true, (o.addName name).AddRaw (decimal v.uint_val))) ∧
    decimal v.uint_val ≠ ascii "null" ∧
    decimalValue (decimal v.uint_val) = v.uint_val := by
  obtain ⟨type, present, int_val, uint_val, port, subnet_val, addr_val, double_val,
    string_val, set_val, vector_val⟩ := v
  simp only [Value.type, Value.present, Value.uint_val] at htype hpresent ⊢
  subst hpresent
  have hmax : INT64_MAX = 2 ^ 63 - 1 := by norm_num [INT64_MAX]
  refine ⟨?_, ?_, ?_, decimalValue_decimal _⟩
  · intro h
    have h' : uint_val ≥ INT64_MAX := by rw [hmax]; exact h
    rcases htype with ht | ht <;> subst ht <;> simp [DescribeInternal, h']
  · intro h
    have h' : ¬ uint_val ≥ INT64_MAX := by rw [hmax]; omega
    rcases htype with ht | ht <;> subst ht <;> simp [DescribeInternal, h']
  · intro hnull
    have h110 := decimal_digits uint_val 110 (by rw [hnull]; decide)
    omega

/-- Witness for C10: the count 2^63 - 2 is written in decimal digits. -/
theorem count_rendering_witness :
    DescribeInternal samplePlatform (JSON.new TimeFormat.TS_EPOCH 0)
        { desc := [], truncated := none, errors := [] }
        (Value.ofCount 9223372036854775806) [] []
      = some (true, { desc := ascii "9223372036854775806", truncated := none,
                      errors := [] }) := by
  have h := (count_rendering samplePlatform (JSON.new TimeFormat.TS_EPOCH 0)
    { desc := [], truncated := none, errors := [] }
    (Value.ofCount 9223372036854775806) [] [] (Or.inl rfl) rfl).2.1 (by decide)
  rw [h]
  decide


/-! ## Records -/

theorem addName_eq (o : Out) (name : List Nat) :
    o.addName name
      = { desc := o.desc ++ nameHeader name, truncated := o.truncated, errors := o.errors } := by
  unfold Out.addName nameHeader
  split <;> simp [Out.AddRaw]

theorem cleanEnds_of_forall (l : List Nat) (h : ∀ b ∈ l, b ≠ 44 ∧ b ≠ 123 ∧ b ≠ 91) :
    cleanEnds l := by
  refine ⟨?_, ?_, ?_, ?_⟩
  · intro hh
    exact (h 44 (List.mem_of_mem_head? hh)).1 rfl
  · intro hh
    exact (h 44 (List.mem_of_mem_getLast? hh)).1 rfl
  · intro hh
    exact (h 123 (List.mem_of_mem_getLast? hh)).2.1 rfl
  · intro hh
    exact (h 91 (List.mem_of_mem_getLast? hh)).2.2 rfl

theorem cleanEnds_wrapped (a z : Nat) (x : List Nat) (ha : a ≠ 44)
    (hz : z ≠ 44 ∧ z ≠ 123 ∧ z ≠ 91) : cleanEnds (a :: x ++ [z]) := by
  refine ⟨?_, ?_, ?_, ?_⟩
  · simpa using ha
  · rw [List.getLast?_concat]; simpa using hz.1
  · rw [List.getLast?_concat]; simpa using hz.2.1
  · rw [List.getLast?_concat]; simpa using hz.2.2

theorem cleanEnds_decimal (n : Nat) : cleanEnds (decimal n) :=
  cleanEnds_of_forall _ (fun b hb => by have := decimal_digits n b hb; omega)

theorem cleanEnds_decimalInt (i : Int) : cleanEnds (decimalInt i) := by
  apply cleanEnds_of_forall
  intro b hb
  unfold decimalInt at hb
  split at hb
  · rcases List.mem_cons.mp hb with hb | hb
    · omega
    · have := decimal_digits _ b hb; omega
  · have := decimal_digits _ b hb; omega

theorem decimalInt_ne_nil (i : Int) : decimalInt i ≠ [] := by
  unfold decimalInt
  split
  · simp
  · exact decimal_ne_nil _

mutual
theorem DescribeInternal_frame (P : Platform) (J : JSON) (hlim : J.size_limit_hint = 0)
    (hnum : P.numberText) : ∀ v : Value, v.present = true → v.convertible P J = true →
    ∃ (r : Bool) (t : List Nat) (e : List ErrorReport),
      (∀ (o : Out) (name last_name : List Nat),
        DescribeInternal P J o v name last_name
          = some (r, { desc := o.desc ++ nameHeader name ++ t, truncated := o.truncated,
                       errors := o.errors ++ e })) ∧
      (v.type ≠ TypeTag.TYPE_OTHER → r = true) ∧ cleanEnds t ∧
      (v.type ≠ TypeTag.TYPE_OTHER →
        (v.type ≠ TypeTag.TYPE_TIME ∨ J.timestamps ≠ TimeFormat.TS_ISO8601 ∨
          P.iso8601 v.double_val ≠ IsoResult.failed) → t ≠ [])
  | .mk type present int_val uint_val port subnet_val addr_val double_val string_val
      set_val vector_val, hp, hc => by
    simp only [Value.present] at hp
    subst hp
    simp only [Value.type, Value.double_val]
    cases type with
    | TYPE_BOOL =>
      refine ⟨true, if int_val = 0 then ascii "false" else ascii "true", [], ?_, ?_, ?_, ?_⟩
      · intro o name last_name
        simp [DescribeInternal, addName_eq, Out.AddRaw]
      · simp
      · split <;> (unfold cleanEnds; decide)
      · intro _ _; split <;> decide
    | TYPE_INT =>
      refine ⟨true, decimalInt int_val, [], ?_, ?_, cleanEnds_decimalInt _, ?_⟩
      · intro o name last_name
        simp [DescribeInternal, addName_eq, Out.AddRaw]
      · simp
      · intro _ _; exact decimalInt_ne_nil _
    | TYPE_COUNT =>
      by_cases hu : uint_val ≥ INT64_MAX
      · refine ⟨true, ascii "null", [ErrorReport.count_too_large uint_val], ?_, ?_, ?_, ?_⟩
        · intro o name last_name
          simp [DescribeInternal, addName_eq, Out.AddRaw, Out.Error, hu]
        · simp
        · unfold cleanEnds; decide
        · intro _ _; decide
      · refine ⟨true, decimal uint_val, [], ?_, ?_, cleanEnds_decimal _, ?_⟩
        · intro o name last_name
          simp [DescribeInternal, addName_eq, Out.AddRaw, hu]
        · simp
        · intro _ _; exact decimal_ne_nil _
    | TYPE_COUNTER =>
      by_cases hu : uint_val ≥ INT64_MAX
      · refine ⟨true, ascii "null", [ErrorReport.count_too_large uint_val], ?_, ?_, ?_, ?_⟩
        · intro o name last_name
          simp [DescribeInternal, addName_eq, Out.AddRaw, Out.Error, hu]
        · simp
        · unfold cleanEnds; decide
        · intro _ _; decide
      · refine ⟨true, decimal uint_val, [], ?_, ?_, cleanEnds_decimal _, ?_⟩
        · intro o name last_name
          simp [DescribeInternal, addName_eq, Out.AddRaw, hu]
        · simp
        · intro _ _; exact decimal_ne_nil _
    | TYPE_PORT =>
      refine ⟨true, decimal port, [], ?_, ?_, cleanEnds_decimal _, ?_⟩
      · intro o name last_name
        simp [DescribeInternal, addName_eq, Out.AddRaw]
      · simp
      · intro _ _; exact decimal_ne_nil _
    | TYPE_SUBNET =>
      refine ⟨true, 34 :: P.render_subnet subnet_val ++ [34], [], ?_, ?_,
        cleanEnds_wrapped 34 34 _ (by decide) (by decide), ?_⟩
      · intro o name last_name
        simp [DescribeInternal, addName_eq, Out.AddRaw]
      · simp
      · intro _ _; simp
    | TYPE_ADDR =>
      refine ⟨true, 34 :: P.render_addr addr_val ++ [34], [], ?_, ?_,
        cleanEnds_wrapped 34 34 _ (by decide) (by decide), ?_⟩
      · intro o name last_name
        simp [DescribeInternal, addName_eq, Out.AddRaw]
      · simp
      · intro _ _; simp
    | TYPE_DOUBLE =>
      refine ⟨true, P.add_double double_val, [], ?_, ?_,
        cleanEnds_of_forall _ (hnum double_val).2, ?_⟩
      · intro o name last_name
        simp [DescribeInternal, addName_eq, Out.AddRaw]
      · simp
      · intro _ _; exact (hnum double_val).1
    | TYPE_INTERVAL =>
      refine ⟨true, P.add_double double_val, [], ?_, ?_,
        cleanEnds_of_forall _ (hnum double_val).2, ?_⟩
      · intro o name last_name
        simp [DescribeInternal, addName_eq, Out.AddRaw]
      · simp
      · intro _ _; exact (hnum double_val).1
    | TYPE_TIME =>
      cases hts : J.timestamps with
      | TS_EPOCH =>
        refine ⟨true, P.add_double double_val, [], ?_, ?_,
          cleanEnds_of_forall _ (hnum double_val).2, ?_⟩
        · intro o name last_name
          simp [DescribeInternal, addName_eq, Out.AddRaw, hts]
        · simp
        · intro _ _; exact (hnum double_val).1
      | TS_ISO8601 =>
        cases hiso : P.iso8601 double_val with
        | fault => simp [Value.convertible, hts, hiso] at hc
        | failed =>
          refine ⟨true, [], [ErrorReport.strftime_error], ?_, ?_, ?_, ?_⟩
          · intro o name last_name
            simp [DescribeInternal, addName_eq, Out.Error, hts, hiso]
          · simp
          · unfold cleanEnds; decide
          · intro _ h; simp at h
        | text buffer2 =>
          refine ⟨true, 34 :: buffer2 ++ [34], [], ?_, ?_,
            cleanEnds_wrapped 34 34 _ (by decide) (by decide), ?_⟩
          · intro o name last_name
            simp [DescribeInternal, addName_eq, Out.AddRaw, hts, hiso]
          · simp
          · intro _ _; simp
      | TS_MILLIS =>
        by_cases hm : P.to_millis double_val < INT64_MAX
        · refine ⟨true, decimal (P.to_millis double_val), [], ?_, ?_, cleanEnds_decimal _, ?_⟩
          · intro o name last_name
            simp [DescribeInternal, addName_eq, Out.AddRaw, hts, hm]
          · simp
          · intro _ _; exact decimal_ne_nil _
        · refine ⟨true, ascii "null", [ErrorReport.time_too_large (P.to_millis double_val)],
            ?_, ?_, ?_, ?_⟩
          · intro o name last_name
            simp [DescribeInternal, addName_eq, Out.AddRaw, Out.Error, hts, hm]
          · simp
          · unfold cleanEnds; decide
          · intro _ _; decide
    | TYPE_ENUM =>
      refine ⟨true, 34 :: string_val.flatMap (escapePiece P) ++ [34], [], ?_, ?_,
        cleanEnds_wrapped 34 34 _ (by decide) (by decide), ?_⟩
      · intro o name last_name
        simp [DescribeInternal, addName_eq, Out.AddRaw, escapeLoop_eq,
          finishString_unlimited _ _ _ _ hlim]
      · simp
      · intro _ _; simp
    | TYPE_STRING =>
      refine ⟨true, 34 :: string_val.flatMap (escapePiece P) ++ [34], [], ?_, ?_,
        cleanEnds_wrapped 34 34 _ (by decide) (by decide), ?_⟩
      · intro o name last_name
        simp [DescribeInternal, addName_eq, Out.AddRaw, escapeLoop_eq,
          finishString_unlimited _ _ _ _ hlim]
      · simp
      · intro _ _; simp
    | TYPE_FILE =>
      refine ⟨true, 34 :: string_val.flatMap (escapePiece P) ++ [34], [], ?_, ?_,
        cleanEnds_wrapped 34 34 _ (by decide) (by decide), ?_⟩
      · intro o name last_name
        simp [DescribeInternal, addName_eq, Out.AddRaw, escapeLoop_eq,
          finishString_unlimited _ _ _ _ hlim]
      · simp
      · intro _ _; simp
    | TYPE_FUNC =>
      refine ⟨true, 34 :: string_val.flatMap (escapePiece P) ++ [34], [], ?_, ?_,
        cleanEnds_wrapped 34 34 _ (by decide) (by decide), ?_⟩
      · intro o name last_name
        simp [DescribeInternal, addName_eq, Out.AddRaw, escapeLoop_eq,
          finishString_unlimited _ _ _ _ hlim]
      · simp
      · intro _ _; simp
    | TYPE_TABLE =>
      obtain ⟨t, e, h⟩ := describeElements_frame P J hlim hnum set_val 0
        (by simpa [Value.convertible] using hc)
      refine ⟨true, 91 :: t ++ [93], e, ?_, ?_,
        cleanEnds_wrapped 91 93 _ (by decide) (by decide), ?_⟩
      · intro o name last_name
        simp [DescribeInternal, addName_eq, Out.AddRaw, h]
      · simp
      · intro _ _; simp
    | TYPE_VECTOR =>
      obtain ⟨t, e, h⟩ := describeElements_frame P J hlim hnum vector_val 0
        (by simpa [Value.convertible] using hc)
      refine ⟨true, 91 :: t ++ [93], e, ?_, ?_,
        cleanEnds_wrapped 91 93 _ (by decide) (by decide), ?_⟩
      · intro o name last_name
        simp [DescribeInternal, addName_eq, Out.AddRaw, h]
      · simp
      · intro _ _; simp
    | TYPE_OTHER =>
      refine ⟨false, [], [], ?_, ?_, ?_, ?_⟩
      · intro o name last_name
        simp [DescribeInternal, addName_eq]
      · simp
      · unfold cleanEnds; decide
      · intro h; simp at h
theorem describeElements_frame (P : Platform) (J : JSON) (hlim : J.size_limit_hint = 0)
    (hnum : P.numberText) : ∀ (vs : List Value) (j : Nat), allConvertible P J vs = true →
    ∃ (t : List Nat) (e : List ErrorReport),
      ∀ (o : Out) (name last_name : List Nat),
        describeElements P J o j vs name last_name
          = some { desc := o.desc ++ t, truncated := o.truncated, errors := o.errors ++ e }
  | [], j, _ => ⟨[], [], by intro o name last_name; simp [describeElements]⟩
  | v :: rest, j, hc => by
    have hcv : v.convertible P J = true ∧ allConvertible P J rest = true := by
      simpa [allConvertible] using hc
    obtain ⟨t2, e2, h2⟩ := describeElements_frame P J hlim hnum rest (j + 1) hcv.2
    by_cases hp : v.present = true
    · obtain ⟨r, t1, e1, h1, -, -, -⟩ := DescribeInternal_frame P J hlim hnum v hp hcv.1
      refine ⟨(if j > 0 then [44] else []) ++ t1 ++ t2, e1 ++ e2, ?_⟩
      intro o name last_name
      simp only [describeElements, h1, hlim]
      by_cases hj : j > 0 <;> simp [hj, h2, Out.AddRaw, nameHeader]
    · have hp' : v.present = false := by simpa using hp
      refine ⟨(if j > 0 then [44] else []) ++ t2, e2, ?_⟩
      intro o name last_name
      have h1 : ∀ o', DescribeInternal P J o' v [] name = some (true, o') := by
        intro o'
        obtain ⟨type, present, int_val, uint_val, port, subnet_val, addr_val, double_val,
          string_val, set_val, vector_val⟩ := v
        simp only [Value.present] at hp'
        subst hp'
        simp [DescribeInternal]
      simp only [describeElements, h1, hlim]
      by_cases hj : j > 0 <;> simp [hj, h2, Out.AddRaw]
end


theorem DescribeInternal_absent (P : Platform) (J : JSON) (o : Out) (v : Value)
    (name last_name : List Nat) (hp : v.present = false) :
    DescribeInternal P J o v name last_name = some (true, o) := by
  obtain ⟨type, present, int_val, uint_val, port, subnet_val, addr_val, double_val,
    string_val, set_val, vector_val⟩ := v
  simp only [Value.present] at hp
  subst hp
  simp [DescribeInternal]

theorem cleanEnds_nameHeader (name : List Nat) : cleanEnds (nameHeader name) := by
  unfold nameHeader
  split
  · have h : [34] ++ name ++ [34, 58] = 34 :: (name ++ [34]) ++ [58] := by simp
    rw [h]
    exact cleanEnds_wrapped 34 58 _ (by decide) (by decide)
  · unfold cleanEnds; decide

theorem cleanEnds_append (a b : List Nat) (ha : cleanEnds a) (hb : cleanEnds b) :
    cleanEnds (a ++ b) := by
  unfold cleanEnds at *
  rw [List.head?_append, List.getLast?_append]
  cases a with
  | nil => simpa using hb
  | cons x xs =>
    cases hl : b.getLast? with
    | none =>
      simp only [List.head?_cons, Option.or]
      exact ha
    | some z =>
      rw [hl] at hb
      simp only [List.head?_cons, Option.or]
      exact ⟨ha.1, hb.2⟩

/-- Under no size limit a present field of a supported type is written as its rendering,
whatever the buffer holds, and the call returns true. -/
theorem describe_field (P : Platform) (J : JSON) (hlim : J.size_limit_hint = 0)
    (hnum : P.numberText) (fv : Field × Value) (hp : fv.2.present = true)
    (hs : fv.2.supported = true) (hcv : fv.2.convertible P J = true) :
    (∃ e : List ErrorReport, ∀ (o : Out) (last_name : List Nat),
      DescribeInternal P J o fv.2 fv.1.name last_name
        = some (true, { desc := o.desc ++ fieldText P J fv, truncated := o.truncated,
                        errors := o.errors ++ e })) ∧
    cleanEnds (fieldText P J fv) ∧ (writesText P J fv → fieldText P J fv ≠ []) := by
  obtain ⟨r, t, e, h, hr, hc, hne⟩ := DescribeInternal_frame P J hlim hnum fv.2 hp hcv
  have hsup : fv.2.type ≠ TypeTag.TYPE_OTHER := by simpa [Value.supported] using hs
  have hrt := hr hsup
  subst hrt
  have hvt : valueText P J fv.2 = t := by
    unfold valueText
    rw [h]
    simp [nameHeader]
  refine ⟨⟨e, ?_⟩, ?_, ?_⟩
  · intro o last_name
    rw [h, fieldText, hvt, List.append_assoc]
  · rw [fieldText, hvt]
    exact cleanEnds_append _ _ (cleanEnds_nameHeader _) hc
  · intro hw
    rw [fieldText, hvt]
    rcases hw with hn | hw
    · have : nameHeader fv.1.name ≠ [] := by
        unfold nameHeader
        have : fv.1.name.length ≠ 0 := by
          intro h0; exact hn (List.length_eq_zero.mp h0)
        simp [this]
      simp [this]
    · have := hne hsup hw
      simp [this]

theorem commaSeparated_cons (t : List Nat) (ts : List (List Nat)) :
    commaSeparated (t :: ts) = t ++ commaPrefixed ts := by
  induction ts generalizing t with
  | nil => simp [commaSeparated, commaPrefixed]
  | cons t' ts ih => simp [commaSeparated, commaPrefixed, ih]

theorem presentTexts_cons_present (P : Platform) (J : JSON) (fv : Field × Value)
    (rest : List (Field × Value)) (hp : fv.2.present = true) :
    presentTexts P J (fv :: rest) = fieldText P J fv :: presentTexts P J rest := by
  simp [presentTexts, List.filter_cons, hp]

theorem presentTexts_cons_absent (P : Platform) (J : JSON) (fv : Field × Value)
    (rest : List (Field × Value)) (hp : fv.2.present = false) :
    presentTexts P J (fv :: rest) = presentTexts P J rest := by
  simp [presentTexts, List.filter_cons, hp]

/-- The loop over the fields once a field has been written: every further present field is
preceded by a comma. -/
theorem describeFields_tail (P : Platform) (J : JSON) (hlim : J.size_limit_hint = 0)
    (hnum : P.numberText) (fields : List (Field × Value)) :
    (∀ fv ∈ fields, fv.2.supported = true) → (∀ fv ∈ fields, writesText P J fv) →
    (∀ fv ∈ fields, fv.2.convertible P J = true) →
    ∀ (i : Nat) (o : Out), 0 < i → o.desc ≠ [] →
      o.desc.getLast? ≠ some 44 → o.desc.getLast? ≠ some 123 → o.desc.getLast? ≠ some 91 →
      ∃ e : List ErrorReport,
        describeFields P J i o fields
          = some (true, { desc := o.desc ++ commaPrefixed (presentTexts P J fields),
                          truncated := o.truncated, errors := o.errors ++ e }) := by
  induction fields with
  | nil =>
    intro _ _ _ i o _ _ _ _ _
    exact ⟨[], by simp [describeFields, presentTexts, commaPrefixed]⟩
  | cons fv rest ih =>
    intro hs hw hcv i o hi hne h44 h123 h91
    have hcv' : ∀ fv' ∈ rest, fv'.2.convertible P J = true :=
      fun x hx => hcv x (List.mem_cons_of_mem _ hx)
    have hs' : ∀ fv' ∈ rest, fv'.2.supported = true :=
      fun x hx => hs x (List.mem_cons_of_mem _ hx)
    have hw' : ∀ fv' ∈ rest, writesText P J fv' :=
      fun x hx => hw x (List.mem_cons_of_mem _ hx)
    obtain ⟨f, v⟩ := fv
    have hlen : o.desc.length > 0 := List.length_pos.mpr hne
    by_cases hp : v.present = true
    · obtain ⟨⟨e1, h1⟩, hc, hnonempty⟩ :=
        describe_field P J hlim hnum (f, v) hp (hs _ (List.mem_cons_self _ _))
          (hcv _ (List.mem_cons_self _ _))
      have hft := hnonempty (hw _ (List.mem_cons_self _ _))
      have hlast : (o.desc ++ [44] ++ fieldText P J (f, v)).getLast?
          = (fieldText P J (f, v)).getLast? := by
        rw [List.getLast?_append]
        cases hl : (fieldText P J (f, v)).getLast? with
        | none => exact absurd (List.getLast?_eq_none_iff.mp hl) hft
        | some z => simp
      obtain ⟨e2, h2⟩ := ih hs' hw' hcv' (i + 1)
        { desc := o.desc ++ [44] ++ fieldText P J (f, v), truncated := o.truncated,
          errors := o.errors ++ e1 } (by omega) (by simp)
        (by rw [hlast]; exact hc.2.1) (by rw [hlast]; exact hc.2.2.1)
        (by rw [hlast]; exact hc.2.2.2)
      refine ⟨e1 ++ e2, ?_⟩
      have hcond : (i > 0 ∧ o.desc.length > 0 ∧ o.desc.getLast? ≠ some 44 ∧
          o.desc.getLast? ≠ some 123 ∧ o.desc.getLast? ≠ some 91 ∧ v.present = true) :=
        ⟨hi, hlen, h44, h123, h91, hp⟩
      simp only [describeFields, if_pos hcond]
      have h1' := h1 (o.AddRaw [44]) f.name
      simp only [Out.AddRaw] at h1'
      simp only [Out.AddRaw]
      rw [h1']
      simp only []
      rw [h2, presentTexts_cons_present P J (f, v) rest hp]
      simp [commaPrefixed]
    · have hp' : v.present = false := by simpa using hp
      obtain ⟨e2, h2⟩ := ih hs' hw' hcv' (i + 1) o (by omega) hne h44 h123 h91
      refine ⟨e2, ?_⟩
      have hcond : ¬ (i > 0 ∧ o.desc.length > 0 ∧ o.desc.getLast? ≠ some 44 ∧
          o.desc.getLast? ≠ some 123 ∧ o.desc.getLast? ≠ some 91 ∧ v.present = true) :=
        fun h => hp h.2.2.2.2.2
      simp only [describeFields, if_neg hcond]
      rw [DescribeInternal_absent P J o v f.name f.name hp']
      simp only []
      rw [h2, presentTexts_cons_absent P J (f, v) rest hp']

/-- The loop over the fields right behind the opening brace: the first present field is
written without a comma. -/
theorem describeFields_head (P : Platform) (J : JSON) (hlim : J.size_limit_hint = 0)
    (hnum : P.numberText) (fields : List (Field × Value)) :
    (∀ fv ∈ fields, fv.2.supported = true) → (∀ fv ∈ fields, writesText P J fv) →
    (∀ fv ∈ fields, fv.2.convertible P J = true) →
    ∀ (i : Nat) (o : Out), o.desc.getLast? = some 123 →
      ∃ e : List ErrorReport,
        describeFields P J i o fields
          = some (true, { desc := o.desc ++ commaSeparated (presentTexts P J fields),
                          truncated := o.truncated, errors := o.errors ++ e }) := by
  induction fields with
  | nil =>
    intro _ _ _ i o _
    exact ⟨[], by simp [describeFields, presentTexts, commaSeparated]⟩
  | cons fv rest ih =>
    intro hs hw hcv i o h123
    have hcv' : ∀ fv' ∈ rest, fv'.2.convertible P J = true :=
      fun x hx => hcv x (List.mem_cons_of_mem _ hx)
    have hs' : ∀ fv' ∈ rest, fv'.2.supported = true :=
      fun x hx => hs x (List.mem_cons_of_mem _ hx)
    have hw' : ∀ fv' ∈ rest, writesText P J fv' :=
      fun x hx => hw x (List.mem_cons_of_mem _ hx)
    obtain ⟨f, v⟩ := fv
    have hcond : ¬ (i > 0 ∧ o.desc.length > 0 ∧ o.desc.getLast? ≠ some 44 ∧
        o.desc.getLast? ≠ some 123 ∧ o.desc.getLast? ≠ some 91 ∧ v.present = true) :=
      fun h => h.2.2.2.1 h123
    by_cases hp : v.present = true
    · obtain ⟨⟨e1, h1⟩, hc, hnonempty⟩ :=
        describe_field P J hlim hnum (f, v) hp (hs _ (List.mem_cons_self _ _))
          (hcv _ (List.mem_cons_self _ _))
      have hft := hnonempty (hw _ (List.mem_cons_self _ _))
      have hlast : (o.desc ++ fieldText P J (f, v)).getLast?
          = (fieldText P J (f, v)).getLast? := by
        rw [List.getLast?_append]
        cases hl : (fieldText P J (f, v)).getLast? with
        | none => exact absurd (List.getLast?_eq_none_iff.mp hl) hft
        | some z => simp
      obtain ⟨e2, h2⟩ := describeFields_tail P J hlim hnum rest hs' hw' hcv' (i + 1)
        { desc := o.desc ++ fieldText P J (f, v), truncated := o.truncated,
          errors := o.errors ++ e1 } (by omega) (by simp [hft])
        (by rw [hlast]; exact hc.2.1) (by rw [hlast]; exact hc.2.2.1)
        (by rw [hlast]; exact hc.2.2.2)
      refine ⟨e1 ++ e2, ?_⟩
      simp only [describeFields, if_neg hcond]
      rw [h1 o f.name]
      simp only []
      rw [h2, presentTexts_cons_present P J (f, v) rest hp, commaSeparated_cons]
      simp
    · have hp' : v.present = false := by simpa using hp
      obtain ⟨e2, h2⟩ := ih hs' hw' hcv' (i + 1) o h123
      refine ⟨e2, ?_⟩
      simp only [describeFields, if_neg hcond]
      rw [DescribeInternal_absent P J o v f.name f.name hp']
      simp only []
      rw [h2, presentTexts_cons_absent P J (f, v) rest hp']

theorem nameHeader_named (name : List Nat) (h : name ≠ []) :
    nameHeader name = [34] ++ name ++ [34, 58] := by
  have : name.length ≠ 0 := fun h0 => h (List.length_eq_zero.mp h0)
  simp [nameHeader, this]

/-- Counterexample for C9: a present field with an empty name is written as its value alone,
so the record holding the boolean `true` under the name `""` is written as `{true}` and not
as `{"":true}`; and with the ISO 8601 format the record holding the time stamp 10^18 under
the name `ts` does not return, because `gmtime` yields a null pointer that `strftime`
dereferences. -/
theorem record_describe_refuted :
    Describe samplePlatform (JSON.new TimeFormat.TS_EPOCH 0) [] []
        [(Field.named "", Value.ofBool true)]
      = some (true, ascii "\x7btrue\x7d", []) ∧
    ascii "\x7btrue\x7d"
      ≠ [123] ++ ([34] ++ (Field.named "").name ++ [34, 58]
          ++ valueText samplePlatform (JSON.new TimeFormat.TS_EPOCH 0) (Value.ofBool true))
        ++ [125] ∧
    (Value.ofBool true).supported = true ∧
    Describe samplePlatform (JSON.new TimeFormat.TS_ISO8601 0) [] []
        [(Field.named "ts", Value.ofTime 1000000000000000000)] = none ∧
    (Value.ofTime 1000000000000000000).supported = true := by
  refine ⟨by decide, by decide, by decide, by decide, by decide⟩

/-- Claim C9, amended: with surrounding braces on, no size limit and an initially empty
buffer, for every list of fields with non-empty names whose values all have supported types
and hold only time stamps that `gmtime` converts, `Describe` returns true and writes an
opening brace, the renderings `"name":value` of exactly the present fields, in field order
and separated by single commas, and a closing brace.  A field whose value is absent writes
nothing.  Every rendering is non-empty and neither begins nor ends with a comma, so no
separating comma stands right after the opening brace, right before the closing brace or
next to another separating comma.  The text written for a `double` is taken to be a number
text. -/
theorem record_describe (P : Platform) (J : JSON) (fields : List (Field × Value))
    (hbraces : J.surrounding_braces = true) (hlim : J.size_limit_hint = 0)
    (hsupported : ∀ fv ∈ fields, fv.2.supported = true)
    (hnamed : ∀ fv ∈ fields, fv.1.name ≠ [])
    (hconvertible : ∀ fv ∈ fields, fv.2.convertible P J = true)
    (hnum : P.numberText) :
    (∃ errors : List ErrorReport,
      Describe P J [] [] fields
        = some (true, [123] ++ commaSeparated (presentTexts P J fields) ++ [125], errors)) ∧
    (∀ fv ∈ fields, fieldText P J fv = [34] ++ fv.1.name ++ [34, 58] ++ valueText P J fv.2) ∧
    (∀ fv ∈ fields, fv.2.present = false → ∀ o : Out,
      DescribeInternal P J o fv.2 fv.1.name fv.1.name = some (true, o)) ∧
    (∀ fv ∈ fields, fv.2.present = true → ∃ e : List ErrorReport, ∀ o : Out,
      DescribeInternal P J o fv.2 fv.1.name fv.1.name
        = some (true, { desc := o.desc ++ [34] ++ fv.1.name ++ [34, 58] ++ valueText P J fv.2,
                        truncated := o.truncated, errors := o.errors ++ e })) ∧
    (∀ t ∈ presentTexts P J fields, t ≠ [] ∧ t.head? ≠ some 44 ∧ t.getLast? ≠ some 44) := by
  have hwrites : ∀ fv ∈ fields, writesText P J fv := fun fv hfv => Or.inl (hnamed fv hfv)
  refine ⟨?_, ?_, ?_, ?_, ?_⟩
  · obtain ⟨e, h⟩ := describeFields_head P J hlim hnum fields hsupported hwrites hconvertible 0
      { desc := [123], truncated := some [], errors := [] } (by simp)
    refine ⟨e, ?_⟩
    simp [Describe, hbraces, h, Out.AddRaw]
  · intro fv hfv
    rw [fieldText, nameHeader_named _ (hnamed fv hfv)]
  · intro fv _ hp o
    exact DescribeInternal_absent P J o fv.2 _ _ hp
  · intro fv hfv hp
    obtain ⟨⟨e, h⟩, -, -⟩ := describe_field P J hlim hnum fv hp (hsupported fv hfv)
      (hconvertible fv hfv)
    refine ⟨e, fun o => ?_⟩
    rw [h o fv.1.name, fieldText, nameHeader_named _ (hnamed fv hfv)]
    simp
  · intro t ht
    simp only [presentTexts, List.mem_map, List.mem_filter] at ht
    obtain ⟨fv, ⟨hfv, hp⟩, rfl⟩ := ht
    obtain ⟨-, hc, hne⟩ := describe_field P J hlim hnum fv hp (hsupported fv hfv)
      (hconvertible fv hfv)
    exact ⟨hne (hwrites fv hfv), hc.1, hc.2.1⟩

theorem samplePlatform_numberText : samplePlatform.numberText := by
  intro d
  refine ⟨decimal_ne_nil d, ?_⟩
  intro b hb
  have := decimal_digits d b hb
  omega

/-- Witness for C9: a record with a string field, an absent field, a count field and a time
stamp is written as `{"a":"h","c":12,"t":"7"}` on the sample target. -/
theorem record_describe_witness :
    (Describe samplePlatform (JSON.new TimeFormat.TS_ISO8601 0) [] []
        [(Field.named "a", Value.ofString [104]), (Field.named "b", Value.absent TypeTag.TYPE_INT),
         (Field.named "c", Value.ofCount 12), (Field.named "t", Value.ofTime 7)]).map
        (fun r => (r.1, r.2.1))
      = some (true, ascii "\x7b\"a\":\"h\",\"c\":12,\"t\":\"7\"\x7d") := by
  obtain ⟨e, h⟩ := (record_describe samplePlatform (JSON.new TimeFormat.TS_ISO8601 0)
    [(Field.named "a", Value.ofString [104]), (Field.named "b", Value.absent TypeTag.TYPE_INT),
     (Field.named "c", Value.ofCount 12), (Field.named "t", Value.ofTime 7)]
    rfl rfl (by decide) (by decide) (by decide) samplePlatform_numberText).1
  rw [h]
  simp only [Option.map]
  decide

end threading.formatter

namespace threading.formatter

/-! ## Truncation of strings -/

theorem decimalInt_sub (d k : Nat) (h : k < d) :
    decimalInt ((d : Int) - (k : Int)) = decimal (d - k) := by
  have hn : ((d : Int) - (k : Int)).natAbs = d - k := by omega
  unfold decimalInt
  rw [hn]
  have : ¬ ((d : Int) - (k : Int) < 0) := by omega
  simp [this]

/-- The statements after the loop when the buffer is longer than the limit and the body is
longer than the part to keep. -/
theorem finishString_truncates (J : JSON) (o : Out) (body last_name : List Nat)
    (names : List (List Nat)) (hL : J.size_limit_hint ≠ 0)
    (hlong : o.desc.length + body.length > J.size_limit_hint)
    (hd : body.length > J.size_limit_hint / 100) (hlist : o.truncated = some names) :
    finishString J o.desc.length (o.AddRaw body) last_name
      = some { desc := o.desc ++ body.take (J.size_limit_hint / 100) ++ ascii "<truncated "
                        ++ decimal (body.length - J.size_limit_hint / 100)
                        ++ ascii " bytes>" ++ [34],
               truncated := some (names ++ [truncatedName last_name]),
               errors := o.errors } := by
  have hcond : J.size_limit_hint ≠ 0 ∧ (o.AddRaw body).desc.length > J.size_limit_hint := by
    refine ⟨hL, ?_⟩
    simp only [Out.AddRaw, List.length_append]
    exact hlong
  have hdelta : ((o.AddRaw body).desc.length : Int) - (o.desc.length : Int)
      = (body.length : Int) := by
    simp only [Out.AddRaw, List.length_append]
    push_cast
    omega
  have hgt : (body.length : Int) > ((J.size_limit_hint / 100 : Nat) : Int) := by
    exact_mod_cast hd
  have htake : (o.desc ++ body).take (o.desc.length + J.size_limit_hint / 100)
      = o.desc ++ body.take (J.size_limit_hint / 100) := by
    rw [List.take_append]
  unfold finishString
  rw [if_pos hcond]
  simp only [hdelta]
  rw [if_pos hgt, decimalInt_sub _ _ hd]
  simp only [Out.Truncate, Out.AddRaw, Out.push_back, htake, hlist, truncatedName]

/-- The statements after the loop when the buffer is within the limit or the body is not
longer than the part to keep. -/
theorem finishString_whole (J : JSON) (o : Out) (body last_name : List Nat)
    (h : ¬ (o.desc.length + body.length > J.size_limit_hint ∧
      body.length > J.size_limit_hint / 100)) :
    finishString J o.desc.length (o.AddRaw body) last_name
      = some { desc := o.desc ++ body ++ [34], truncated := o.truncated,
               errors := o.errors } := by
  unfold finishString
  by_cases hcond : J.size_limit_hint ≠ 0 ∧ (o.AddRaw body).desc.length > J.size_limit_hint
  · rw [if_pos hcond]
    have hlong : o.desc.length + body.length > J.size_limit_hint := by
      have := hcond.2
      simpa only [Out.AddRaw, List.length_append] using this
    have hd : ¬ body.length > J.size_limit_hint / 100 := fun hd => h ⟨hlong, hd⟩
    have hdelta : ((o.AddRaw body).desc.length : Int) - (o.desc.length : Int)
        = (body.length : Int) := by
      simp only [Out.AddRaw, List.length_append]
      push_cast
      omega
    have hgt : ¬ (body.length : Int) > ((J.size_limit_hint / 100 : Nat) : Int) := by
      intro hh
      exact hd (by exact_mod_cast hh)
    simp only [hdelta]
    rw [if_neg hgt]
    simp [Out.AddRaw]
  · rw [if_neg hcond]
    simp [Out.AddRaw]

theorem DescribeInternal_string (P : Platform) (J : JSON) (o : Out) (v : Value)
    (name last_name : List Nat)
    (htype : v.type = TypeTag.TYPE_ENUM ∨ v.type = TypeTag.TYPE_STRING ∨
      v.type = TypeTag.TYPE_FILE ∨ v.type = TypeTag.TYPE_FUNC)
    (hpresent : v.present = true) :
    DescribeInternal P J o v name last_name
      = (finishString J ((o.addName name).AddRaw [34]).desc.length
          (((o.addName name).AddRaw [34]).AddRaw (escapedBody P v)) last_name).map
          (fun o2 => (true, o2)) := by
  obtain ⟨type, present, int_val, uint_val, port, subnet_val, addr_val, double_val,
    string_val, set_val, vector_val⟩ := v
  simp only [Value.type, Value.present] at htype hpresent
  subst hpresent
  simp only [escapedBody, Value.string_val]
  rcases htype with h | h | h | h <;> subst h <;>
    simp only [DescribeInternal, escapeLoop_eq, Bool.not_true, Bool.false_eq_true, if_false] <;>
    cases finishString J ((o.addName name).AddRaw [34]).desc.length
      (((o.addName name).AddRaw [34]).AddRaw (List.flatMap string_val (escapePiece P)))
      last_name <;> rfl

/-- Claim C11: for a present string-like value (enum, string, file, func) rendered by
`DescribeInternal` with a size limit `L > 0`, let `d` be the length of the escaped body and
`keep = L / 100`.  If the buffer after the body (what was there, the name header, the opening
quote and the body) is longer than `L` and `d > keep`, then, a list of truncated names being
passed, the body is cut to its first `keep` bytes and followed by `<truncated N bytes>` with
`N = d - keep` in decimal, and the field name `last_name` (or `???` when it is empty) is
appended to the list.  In every other case the body is left whole and the list is as before.
In both cases the closing double quote follows and the call returns true. -/
theorem string_truncation (P : Platform) (J : JSON) (o : Out) (v : Value)
    (name last_name : List Nat)
    (htype : v.type = TypeTag.TYPE_ENUM ∨ v.type = TypeTag.TYPE_STRING ∨
      v.type = TypeTag.TYPE_FILE ∨ v.type = TypeTag.TYPE_FUNC)
    (hpresent : v.present = true) (hL : 0 < J.size_limit_hint) :
    ((o.desc ++ nameHeader name ++ [34] ++ escapedBody P v).length > J.size_limit_hint ∧
        (escapedBody P v).length > J.size_limit_hint / 100 →
      ∀ names : List (List Nat), o.truncated = some names →
        DescribeInternal P J o v name last_name
          = some (true,
              { desc := o.desc ++ nameHeader name ++ [34]
                          ++ (escapedBody P v).take (J.size_limit_hint / 100)
                          ++ ascii "<truncated "
                          ++ decimal ((escapedBody P v).length - J.size_limit_hint / 100)
                          ++ ascii " bytes>" ++ [34],
                truncated := some (names ++ [truncatedName last_name]),
                errors := o.errors })) ∧
    (¬ ((o.desc ++ nameHeader name ++ [34] ++ escapedBody P v).length > J.size_limit_hint ∧
        (escapedBody P v).length > J.size_limit_hint / 100) →
      DescribeInternal P J o v name last_name
        = some (true,
            { desc := o.desc ++ nameHeader name ++ [34] ++ escapedBody P v ++ [34],
              truncated := o.truncated, errors := o.errors })) := by
  have hdesc : ((o.addName name).AddRaw [34]).desc = o.desc ++ nameHeader name ++ [34] := by
    rw [addName_eq]; rfl
  have htr : ((o.addName name).AddRaw [34]).truncated = o.truncated := by
    rw [addName_eq]; rfl
  have her : ((o.addName name).AddRaw [34]).errors = o.errors := by
    rw [addName_eq]; rfl
  have hlen : (o.desc ++ nameHeader name ++ [34] ++ escapedBody P v).length
      = ((o.addName name).AddRaw [34]).desc.length + (escapedBody P v).length := by
    rw [hdesc, List.length_append]
  rw [DescribeInternal_string P J o v name last_name htype hpresent, hlen]
  constructor
  · rintro ⟨hlong, hd⟩ names hlist
    rw [finishString_truncates J _ (escapedBody P v) last_name names (by omega) hlong hd
      (by rw [htr]; exact hlist)]
    simp only [Option.map, hdesc, her]
  · intro h
    rw [finishString_whole J _ (escapedBody P v) last_name h]
    simp only [Option.map, hdesc, htr, her]

set_option maxRecDepth 16384

/-- Witness for C11: with the limit 100 a string of 120 letters `a` in the field `s` is cut
to one byte and the field is recorded. -/
theorem string_truncation_witness :
    DescribeInternal samplePlatform (JSON.new TimeFormat.TS_EPOCH 100)
        { desc := [123], truncated := some [], errors := [] }
        (Value.ofString (List.replicate 120 97)) (ascii "s") (ascii "s")
      = some (true, { desc := ascii "\x7b\"s\":\"a<truncated 119 bytes>\"",
                      truncated := some [ascii "s"], errors := [] }) := by
  have h := (string_truncation samplePlatform (JSON.new TimeFormat.TS_EPOCH 100)
    { desc := [123], truncated := some [], errors := [] }
    (Value.ofString (List.replicate 120 97)) (ascii "s") (ascii "s")
    (Or.inr (Or.inl rfl)) rfl (by decide)).1 (by decide) [] rfl
  rw [h]
  decide

/-! ## The null pointer for the list of truncated names -/

/-- Evaluation for C12: with the size limit 10, the single-value `Describe` of a string of
20 letters `a` named `a`, the record `Describe` of the same field with surrounding braces
off, and the single-value `Describe` of a set holding the count 123456789012 all reach
`ptruncated->push_back` with the null pointer they passed, so the call does not complete. -/
theorem null_list_dereferenced :
    DescribeValue samplePlatform (JSON.new TimeFormat.TS_EPOCH 10) [] []
        (Value.ofString (List.replicate 20 97)) (ascii "a") = none ∧
    Describe samplePlatform ((JSON.new TimeFormat.TS_EPOCH 10).SurroundingBraces false) [] []
        [(Field.named "a", Value.ofString (List.replicate 20 97))] = none ∧
    DescribeValue samplePlatform (JSON.new TimeFormat.TS_EPOCH 10) [] []
        (Value.ofSet [Value.ofCount 123456789012]) (ascii "a") = none := by
  refine ⟨by decide, by decide, by decide⟩

/-! ## Well-formed string bodies -/

/-- Without truncation the escaped body is well-formed, provided `bytetohex` stores
hexadecimal digits. -/
theorem wellFormed_escaped (P : Platform) (hhex : P.hexHelper) (data : List (Fin 256)) :
    wellFormedBody (data.flatMap (escapePiece P)) = true := by
  unfold wellFormedBody
  induction data with
  | nil => rfl
  | cons b rest ih =>
    rw [List.flatMap_cons]
    by_cases hp : isPlain b = true
    · have hb : b.val ≠ 92 ∧ b.val ≠ 34 := by
        simp [isPlain] at hp
        omega
      simp [escapePiece, hp, wellFormedFrom, hb.1, hb.2, ih]
    · simp only [Bool.not_eq_true] at hp
      simp [escapePiece, hp, wellFormedFrom, (hhex b.val).1, (hhex b.val).2, ih]

/-- Evaluation for C13: with the size limit 100, the record `Describe` of the field `s`
holding a string of 20 double quotes cuts the escaped body after its first byte; the text
between the quotes is a backslash followed by `<truncated 119 bytes>`, in which the backslash
does not start an escape, so it is not a well-formed JSON string body. -/
theorem truncated_body_ill_formed :
    Describe samplePlatform (JSON.new TimeFormat.TS_EPOCH 100) [] []
        [(Field.named "s", Value.ofString (List.replicate 20 34))]
      = some (true,
          ascii "\x7b\"s\":\"" ++ ascii "\\<truncated 119 bytes>"
            ++ ascii "\", _truncated: [\"s\"]\x7d", []) ∧
    wellFormedBody (ascii "\\<truncated 119 bytes>") = false ∧
    samplePlatform.hexHelper := by
  refine ⟨by decide, by decide, ?_⟩
  intro b
  have h1 : b / 16 % 16 < 16 := Nat.mod_lt _ (by decide)
  have h2 : b % 16 < 16 := Nat.mod_lt _ (by decide)
  have key : ∀ n : Nat, n < 16 →
      isHexDigit ((ascii "0123456789abcdef").getD n 48) = true := by decide
  exact ⟨key _ h1, key _ h2⟩

end threading.formatter
